import Mathlib

/-!
Verification of the audio-clip allocator of the lns-poll survey application.

The allocator lives in `streamlit_app.py`: `filter_speed_duplicates`,
`get_all_audio_files`, `create_audio_clip_dict` and
`get_participant_audio_clips`.  The embedding below translates those
functions into Lean.  Randomness (`random.choice`, `random.shuffle`) is
modelled by oracle functions indexed by call site: a `choice` oracle picks a
member of a nonempty list and a `shuffle` oracle returns a permutation of its
input.  Every distinct dynamic call receives a distinct index, so every
random outcome of the Python program corresponds to some oracle, and theorems
quantified over all fair oracles cover all random outcomes.
-/

namespace LnsPoll

/-! ### Character / string helpers

These model `os.path.basename`, `os.path.splitext`, `str.lower`,
`str.startswith` and `str.endswith` on the (ASCII) filenames the program
manipulates.  Everything is done on `List Char` so that all definitions
reduce well in the kernel. -/

/-- Model of `str.lower` on one ASCII character (codes 65-90 shift to
97-122, everything else is unchanged). -/
def lowerChar (c : Char) : Char :=
  if 65 ≤ c.toNat ∧ c.toNat ≤ 90 then Char.ofNat (c.toNat + 32) else c

/-- Model of `str.lower` for ASCII strings. -/
def lowerStr (s : String) : String :=
  ⟨s.data.map lowerChar⟩

/-- Model of `os.path.basename`: the suffix after the last `/`. -/
def basenameChars (cs : List Char) : List Char :=
  (cs.reverse.takeWhile (fun c => c ≠ '/')).reverse

/-- Model of `os.path.basename` on strings (the code applies it to paths
like `audio/news_clip_1.mp3`). -/
def basenameStr (s : String) : String :=
  ⟨basenameChars s.data⟩

/-- Model of `os.path.splitext(s)[0]`: drop the extension, i.e. everything
from the last dot on, unless every character before that dot is itself a dot
(Python ignores leading dots of a file name when locating the extension). -/
def stemChars (cs : List Char) : List Char :=
  let rev := cs.reverse
  let ext := rev.takeWhile (fun c => c ≠ '.')
  if ext.length = rev.length then cs
  else
    let stemR := rev.drop (ext.length + 1)
    if stemR.any (fun c => c ≠ '.') then stemR.reverse else cs

/-- Strip a trailing `_spedup` marker, as in
`name_without_ext[:-7] if name_without_ext.endswith('_spedup')`. -/
def stripSpedup (cs : List Char) : List Char :=
  if cs.reverse.take 7 = ['p', 'u', 'd', 'e', 'p', 's', '_'] then
    cs.take (cs.length - 7)
  else cs

/-- The `base_name` computed inside `filter_speed_duplicates`: basename of
the path, extension removed, `_spedup` suffix removed. -/
def base_name (file_path : String) : String :=
  ⟨stripSpedup (stemChars (basenameChars file_path.data))⟩

/-- Does the stem of the file name end in `_spedup`?  (Used only to state
claims about speed variants.) -/
def isSpeedVariant (file_path : String) : Bool :=
  (stemChars (basenameChars file_path.data)).reverse.take 7 =
    ['p', 'u', 'd', 'e', 'p', 's', '_']

/-- Model of `os.path.basename(f).lower().startswith("news_clip_")`. -/
def isNewsClipFile (f : String) : Bool :=
  ((basenameChars f.data).map lowerChar).take 10 = "news_clip_".data

/-- Model of `os.path.basename(f).lower().startswith("news_real_")`. -/
def isNewsRealFile (f : String) : Bool :=
  ((basenameChars f.data).map lowerChar).take 10 = "news_real_".data

/-- The audio extensions recognised by `get_all_audio_files`. -/
def audio_extensions : List String := [".mp3", ".wav", ".m4a", ".ogg"]

/-- Model of `any(file.lower().endswith(ext) for ext in audio_extensions)`. -/
def hasAudioExt (file : String) : Bool :=
  audio_extensions.any fun ext =>
    (file.data.map lowerChar).reverse.take ext.data.length = ext.data.reverse

/-! ### Randomness oracles -/

/-- Randomness oracle: `choice i j` resolves the `random.choice` made for
group `j` of call site `i`; `shuffle i` resolves the `random.shuffle` at call
site `i`. -/
structure Oracle where
  choice : Nat → Nat → List String → String
  shuffle : Nat → List String → List String

/-- A choice oracle is fair when it always picks a member of its (nonempty)
argument, as `random.choice` does. -/
def FairChoice (c : Nat → List String → String) : Prop :=
  ∀ i l, l ≠ [] → c i l ∈ l

/-- A shuffle oracle is fair when it returns a permutation of its argument,
as `random.shuffle` does. -/
def FairShuffle (s : Nat → List String → List String) : Prop :=
  ∀ i l, (s i l).Perm l

/-- A fair oracle resolves every random primitive to a legitimate outcome. -/
def Oracle.Fair (o : Oracle) : Prop :=
  (∀ i j l, l ≠ [] → o.choice i j l ∈ l) ∧ FairShuffle o.shuffle

/-- The deterministic oracle that picks the head of each group and leaves
every list unshuffled; one legitimate random outcome. -/
def idOracle : Oracle :=
  { choice := fun _ _ l => l.headD ""
    shuffle := fun _ l => l }

/-- The identity shuffle oracle used in witnesses. -/
def idShuffle : Nat → List String → List String := fun _ l => l

/-- The head-picking choice oracle used in witnesses. -/
def headChoice : Nat → List String → String := fun _ l => l.headD ""

/-! ### `filter_speed_duplicates` -/

/-- Append `path` to the group keyed by `key`, creating the group at the end
if the key is new — exactly the insertion-ordered `dict` behaviour of
`file_groups[base_name].append(file_path)`. -/
def insertGroup : List (String × List String) → String → String →
    List (String × List String)
  | [], key, path => [(key, [path])]
  | (k, v) :: rest, key, path =>
    if k = key then (k, v ++ [path]) :: rest
    else (k, v) :: insertGroup rest key path

/-- The `file_groups` dictionary of `filter_speed_duplicates`: files grouped
by `base_name`, groups in first-appearance order, members in input order. -/
def fileGroups (files : List String) : List (String × List String) :=
  files.foldl (fun gs p => insertGroup gs (base_name p) p) []

/-- One `random.choice` per group, in dictionary iteration order. -/
def chooseGroups (choice : Nat → List String → String) :
    Nat → List (String × List String) → List String
  | _, [] => []
  | i, g :: gs => choice i g.2 :: chooseGroups choice (i + 1) gs

/-- `filter_speed_duplicates(file_list)`: group the files by `base_name` and
keep one randomly chosen version per group. -/
def filter_speed_duplicates (choice : Nat → List String → String)
    (file_list : List String) : List String :=
  chooseGroups choice 0 (fileGroups file_list)

/-! ### `get_all_audio_files` -/

/-- The directory listing the catalogue scan sees: the audio folder's root
files and its subfolders (name and contained file names).  This models the
`os.listdir` / `os.path.isfile` / `os.path.isdir` results. -/
structure DirListing where
  rootFiles : List String
  subdirs : List (String × List String)

/-- The catalogue returned by `get_all_audio_files`:
`{"general": ..., "language_specific": ...}`. -/
structure Catalogue where
  general : List String
  language_specific : List (String × List String)

/-- Insertion-ordered `dict` update: `m[k] = v` keeps the original position
of an existing key and appends a new key at the end. -/
def dictInsert : List (String × List String) → String → List String →
    List (String × List String)
  | [], k, v => [(k, v)]
  | (k', v') :: rest, k, v =>
    if k' = k then (k, v) :: rest else (k', v') :: dictInsert rest k v

/-- The subfolder loop of `get_all_audio_files`: for each subfolder, filter
by audio extension, join paths, and store the speed-deduplicated list under
the lower-cased folder name when nonempty.  Call-site index `i + 1` feeds
the `random.choice` oracle of that folder's `filter_speed_duplicates`. -/
def buildLangMap (choice : Nat → Nat → List String → String) :
    Nat → List (String × List String) → List (String × List String) →
    List (String × List String)
  | _, m, [] => m
  | i, m, (item, files) :: rest =>
    let language_files :=
      (files.filter hasAudioExt).map fun file => "audio/" ++ item ++ "/" ++ file
    if 0 < language_files.length then
      buildLangMap choice (i + 1)
        (dictInsert m (lowerStr item)
          (filter_speed_duplicates (choice (i + 1)) language_files)) rest
    else buildLangMap choice (i + 1) m rest

/-- `get_all_audio_files()`: general root-level audio files (deduplicated)
plus per-subfolder language-specific audio files (deduplicated), keyed by
lower-cased folder name. -/
def get_all_audio_files (choice : Nat → Nat → List String → String)
    (d : DirListing) : Catalogue :=
  let general_files :=
    (d.rootFiles.filter hasAudioExt).map fun file => "audio/" ++ file
  { general := filter_speed_duplicates (choice 0) general_files
    language_specific := buildLangMap choice 0 [] d.subdirs }

/-! ### Pool selection inside `get_participant_audio_clips` -/

/-- The quota computation: `clip_quota = n // 2`, `real_quota = n -
clip_quota`, swapped when `n` is odd and the `news_clip` pool is strictly
larger than the `news_real` pool. -/
def clipQuotas (target nClip nReal : Nat) : Nat × Nat :=
  let clip_quota := target / 2
  let real_quota := target - clip_quota
  if target % 2 ≠ 0 ∧ nReal < nClip then (real_quota, clip_quota)
  else (clip_quota, real_quota)

/-- `k` successive `pool.pop()` calls: the popped elements (in pop order)
and the remaining pool. -/
def popTake (k : Nat) (l : List String) : List String × List String :=
  (l.reverse.take k, (l.reverse.drop k).reverse)

/-- The top-up `while remaining_slots > 0` loop.  State: remaining slots,
the three pools, the selection so far, and the two drawn-count counters.
Each iteration pops from `news_clip` when it is nonempty and not ahead (or
`news_real` is exhausted), else from `news_real`, else from `other`, else
stops. -/
def topUp : Nat → List String → List String → List String → List String →
    Nat → Nat → List String × Nat × Nat
  | 0, _, _, _, sel, cc, rc => (sel, cc, rc)
  | r + 1, cp, rp, op, sel, cc, rc =>
    if cp ≠ [] ∧ (cc ≤ rc ∨ rp = []) then
      topUp r cp.dropLast rp op (sel ++ [cp.getLastD ""]) (cc + 1) rc
    else if rp ≠ [] then
      topUp r cp rp.dropLast op (sel ++ [rp.getLastD ""]) cc (rc + 1)
    else if op ≠ [] then
      topUp r cp rp op.dropLast (sel ++ [op.getLastD ""]) cc rc
    else (sel, cc, rc)

/-- The draw performed on the three already-shuffled category pools: take
`min(quota, pool size)` from `news_clip` and from `news_real` (popping from
the end), then run the top-up loop.  Returns the selection together with the
`clip_selected_count` and `real_selected_count` counters. -/
def selectCore (target : Nat) (news_clip_pool news_real_pool other_pool : List String) :
    List String × Nat × Nat :=
  let q := clipQuotas target news_clip_pool.length news_real_pool.length
  let clip_take := min q.1 news_clip_pool.length
  let real_take := min q.2 news_real_pool.length
  let p1 := popTake clip_take news_clip_pool
  let p2 := popTake real_take news_real_pool
  let selected := p1.1 ++ p2.1
  let remaining := target - selected.length
  topUp remaining p1.2 p2.2 other_pool selected clip_take real_take

/-- The per-pool selection block of `get_participant_audio_clips` (it occurs
twice, once for the general pool and once for the language pool), returning
the final shuffled selection together with the `clip_selected_count` and
`real_selected_count` counters.  `base` is the shuffle call-site offset. -/
def selectFromPoolFull (shuffle : Nat → List String → List String)
    (base target : Nat) (files : List String) : List String × Nat × Nat :=
  let news_clip_pool := files.filter isNewsClipFile
  let news_real_pool := files.filter isNewsRealFile
  let other_pool :=
    files.filter fun f => !(news_clip_pool ++ news_real_pool).contains f
  let t := selectCore target (shuffle base news_clip_pool)
    (shuffle (base + 1) news_real_pool) (shuffle (base + 2) other_pool)
  (shuffle (base + 3) t.1, t.2.1, t.2.2)

/-- The selected clips of one pool (the counters are local to the code). -/
def selectFromPool (shuffle : Nat → List String → List String)
    (base target : Nat) (files : List String) : List String :=
  (selectFromPoolFull shuffle base target files).1

/-! ### `get_participant_audio_clips` -/

/-- The general-pool contribution: `n_clips = min(N_RANDOM_CLIPS,
len(general_files))` clips when the general pool is nonempty. -/
def generalContribution (shuffle : Nat → List String → List String)
    (Nq : Nat) (cat : Catalogue) : List String :=
  if 0 < cat.general.length then
    selectFromPool shuffle 0 (min Nq cat.general.length) cat.general
  else []

/-- The sentinel values of the language-competence dropdown. -/
def sentinelLanguages : List String := ["Select a language", "None / Not applicable"]

/-- The target-language resolution: `language_competence` when truthy and
not a sentinel, else `mother_tongue` when truthy, else none.  A `none`
argument models Python `None` and `some ""` models the falsy empty string. -/
def target_language (mother_tongue language_competence : Option String) :
    Option String :=
  match language_competence with
  | some lc =>
    if lc ≠ "" ∧ lc ∉ sentinelLanguages then some lc
    else
      match mother_tongue with
      | some mt => if mt ≠ "" then some mt else none
      | none => none
  | none =>
    match mother_tongue with
    | some mt => if mt ≠ "" then some mt else none
    | none => none

/-- First-match lookup in the language map (`dict` keys are unique, so first
match and dict lookup agree). -/
def lookupLang : List (String × List String) → String → Option (List String)
  | [], _ => none
  | (k, v) :: rest, key => if k = key then some v else lookupLang rest key

/-- The language-pool contribution: `m_clips = min(M_LANGUAGE_CLIPS,
len(language_files))` clips from the bucket selected by
`target_language.lower()`, when that bucket exists and is nonempty. -/
def languageContribution (shuffle : Nat → List String → List String)
    (Mq : Nat) (cat : Catalogue) (mother_tongue language_competence : Option String) :
    List String :=
  match target_language mother_tongue language_competence with
  | none => []
  | some tl =>
    match lookupLang cat.language_specific (lowerStr tl) with
    | none => []
    | some language_files =>
      if 0 < language_files.length then
        selectFromPool shuffle 4 (min Mq language_files.length) language_files
      else []

/-- The clip record assembled by `create_audio_clip_dict` (the fixed
five-point question list is kept as its ids). -/
structure AudioClip where
  file : String
  file_name : String
  title : String
  questions : List String
deriving DecidableEq

/-- `create_audio_clip_dict(file_path, clip_number)`. -/
def create_audio_clip_dict (file_path : String) (clip_number : Nat) : AudioClip :=
  { file := file_path
    file_name := basenameStr file_path
    title := "Audio Clip " ++ Nat.repr clip_number
    questions := ["attitude", "naturalness", "trustworthiness"] }

/-- Turn the selected file list into the returned `selected_clips`
dictionary: keys `clip_1`, `clip_2`, … in selection order. -/
def assignClips (sel : List String) : List (String × AudioClip) :=
  sel.enum.map fun p => ("clip_" ++ Nat.repr (p.1 + 1), create_audio_clip_dict p.2 (p.1 + 1))

/-- Number of random general clips (`N_RANDOM_CLIPS = 4`). -/
def N_RANDOM_CLIPS : Nat := 4

/-- Number of language-specific clips (`M_LANGUAGE_CLIPS = 2`). -/
def M_LANGUAGE_CLIPS : Nat := 2

/-- The allocator on an already-built catalogue, with explicit quotas: the
general contribution followed by the language contribution, numbered
consecutively from 1. -/
def allocateFromCatalogue (shuffle : Nat → List String → List String)
    (Nq Mq : Nat) (cat : Catalogue) (mother_tongue language_competence : Option String) :
    List (String × AudioClip) :=
  assignClips
    (generalContribution shuffle Nq cat ++
      languageContribution shuffle Mq cat mother_tongue language_competence)

/-- `get_participant_audio_clips(mother_tongue, language_competence)`:
build the catalogue from the directory listing, then allocate with the
configured quotas. -/
def get_participant_audio_clips (o : Oracle) (d : DirListing)
    (mother_tongue language_competence : Option String) :
    List (String × AudioClip) :=
  allocateFromCatalogue o.shuffle N_RANDOM_CLIPS M_LANGUAGE_CLIPS
    (get_all_audio_files o.choice d) mother_tongue language_competence

/-! ### Concrete fixtures used by witnesses and counterexamples -/

/-- The concrete catalogue of the spec's scenario: six general files, one of
which is a speed duplicate, and no language subfolders. -/
def scenarioListing : DirListing :=
  { rootFiles := ["news_clip_1.mp3", "news_clip_2.mp3", "news_clip_2_spedup.mp3",
      "news_real_1.mp3", "news_real_2.mp3", "news_real_3.mp3"]
    subdirs := [] }

/-- A catalogue whose general pool and `tamil` language pool contain files
with the same file name (hence the same `base_name`). -/
def crossPoolListing : DirListing :=
  { rootFiles := ["news_clip_1.mp3"]
    subdirs := [("tamil", ["news_clip_1.mp3"])] }

/-- Two input files in different directories sharing one file name: neither
is a speed variant, yet they fall into the same `base_name` group. -/
def sameNameInput : List String := ["a/x.mp3", "b/x.mp3"]

/-- A small catalogue with populated `french` and `tamil` buckets, used to
instantiate the language-override theorems. -/
def langListing : DirListing :=
  { rootFiles := []
    subdirs := [("French", ["news_clip_1.mp3", "news_real_1.mp3"]),
      ("Tamil", ["news_clip_9.mp3", "news_real_9.mp3", "news_real_8.mp3"])] }

/-- The catalogue built from `langListing` by the head-picking identity
oracle. -/
def langCat : Catalogue := get_all_audio_files idOracle.choice langListing

/-- A balanced four-file pool used to instantiate the balance theorems. -/
def balancedFiles : List String :=
  ["audio/news_clip_1.mp3", "audio/news_clip_2.mp3",
    "audio/news_real_1.mp3", "audio/news_real_2.mp3"]

/-! ## Lemmas -/

open List

/-- The head-picking choice oracle is fair. -/
theorem headChoice_fair : FairChoice headChoice := by
  intro i l hl
  cases l with
  | nil => exact absurd rfl hl
  | cons a t => simp [headChoice]

/-- The identity shuffle oracle is fair. -/
theorem idShuffle_fair : FairShuffle idShuffle := fun _ l => Perm.refl l

/-- The deterministic oracle is fair: it realizes one legitimate random
outcome of the program. -/
theorem idOracle_fair : Oracle.Fair idOracle := by
  refine ⟨fun i j l hl => ?_, fun _ l => Perm.refl l⟩
  cases l with
  | nil => exact absurd rfl hl
  | cons a t => simp [idOracle]

theorem getLastD_mem {α : Type} (l : List α) (d : α) (h : l ≠ []) : l.getLastD d ∈ l := by
  induction l with
  | nil => exact absurd rfl h
  | cons a t ih =>
    cases t with
    | nil => simp [List.getLastD]
    | cons b u =>
      have := ih (by simp)
      simp only [List.getLastD] at this ⊢
      exact List.mem_cons_of_mem _ this

theorem dropLast_append_getLastD {α : Type} (l : List α) (d : α) (h : l ≠ []) :
    l.dropLast ++ [l.getLastD d] = l := by
  induction l with
  | nil => exact absurd rfl h
  | cons a t ih =>
    cases t with
    | nil => simp [List.getLastD]
    | cons b u =>
      have := ih (by simp)
      simp only [List.getLastD] at this ⊢
      simp [List.dropLast, this]

/-! ### `popTake` -/

theorem popTake_fst_length (k : Nat) (l : List String) :
    (popTake k l).1.length = min k l.length := by
  simp [popTake]

theorem popTake_snd_length (k : Nat) (l : List String) :
    (popTake k l).2.length = l.length - k := by
  simp [popTake]

theorem popTake_fst_mem {k : Nat} {l : List String} {x : String}
    (h : x ∈ (popTake k l).1) : x ∈ l := by
  simp only [popTake] at h
  exact (List.mem_reverse).1 (List.mem_of_mem_take h)

theorem popTake_snd_mem {k : Nat} {l : List String} {x : String}
    (h : x ∈ (popTake k l).2) : x ∈ l := by
  simp only [popTake] at h
  exact (List.mem_reverse).1 (List.mem_of_mem_drop ((List.mem_reverse).1 h))

theorem popTake_perm (k : Nat) (l : List String) :
    (popTake k l).1 ++ (popTake k l).2 ~ l := by
  simp only [popTake]
  calc l.reverse.take k ++ (l.reverse.drop k).reverse
      ~ l.reverse.take k ++ l.reverse.drop k :=
        Perm.append_left _ (List.reverse_perm _)
    _ = l.reverse := List.take_append_drop _ _
    _ ~ l := List.reverse_perm l

theorem popTake_count (k : Nat) (l : List String) (a : String) :
    (popTake k l).1.count a + (popTake k l).2.count a = l.count a := by
  have := (popTake_perm k l).count_eq a
  simpa [List.count_append] using this

/-! ### `topUp` -/

theorem topUp_zero (cp rp op sel : List String) (cc rc : Nat) :
    topUp 0 cp rp op sel cc rc = (sel, cc, rc) := rfl

theorem topUp_clip_step (r : Nat) (cp rp op sel : List String) (cc rc : Nat)
    (hcp : cp ≠ []) (hc : cc ≤ rc ∨ rp = []) :
    topUp (r + 1) cp rp op sel cc rc =
      topUp r cp.dropLast rp op (sel ++ [cp.getLastD ""]) (cc + 1) rc := by
  simp [topUp, hcp, hc]

theorem topUp_real_step (r : Nat) (cp rp op sel : List String) (cc rc : Nat)
    (hrp : rp ≠ []) (hc : cp = [] ∨ rc < cc) :
    topUp (r + 1) cp rp op sel cc rc =
      topUp r cp rp.dropLast op (sel ++ [rp.getLastD ""]) cc (rc + 1) := by
  have hnot : ¬(cp ≠ [] ∧ (cc ≤ rc ∨ rp = [])) := by
    rcases hc with h | h
    · simp [h]
    · rintro ⟨-, h2 | h2⟩
      · omega
      · exact hrp h2
  show (if cp ≠ [] ∧ (cc ≤ rc ∨ rp = []) then _ else if rp ≠ [] then _ else _) = _
  rw [if_neg hnot, if_pos hrp]

theorem topUp_other_step (r : Nat) (cp rp op sel : List String) (cc rc : Nat)
    (hcp : cp = []) (hrp : rp = []) (hop : op ≠ []) :
    topUp (r + 1) cp rp op sel cc rc =
      topUp r cp rp op.dropLast (sel ++ [op.getLastD ""]) cc rc := by
  subst hcp; subst hrp
  simp [topUp, hop]

theorem topUp_stop (r : Nat) (sel : List String) (cc rc : Nat) :
    topUp (r + 1) [] [] [] sel cc rc = (sel, cc, rc) := by
  simp [topUp]

theorem topUp_sel_length (r : Nat) :
    ∀ (cp rp op sel : List String) (cc rc : Nat),
      (topUp r cp rp op sel cc rc).1.length =
        sel.length + min r (cp.length + rp.length + op.length) := by
  induction r with
  | zero => intro cp rp op sel cc rc; simp [topUp]
  | succ r ih =>
    intro cp rp op sel cc rc
    by_cases h1 : cp ≠ [] ∧ (cc ≤ rc ∨ rp = [])
    · rw [topUp_clip_step r cp rp op sel cc rc h1.1 h1.2, ih]
      have hcp : 0 < cp.length := List.length_pos.2 h1.1
      simp only [List.length_append, List.length_dropLast, List.length_cons,
        List.length_nil]
      rw [Nat.min_def, Nat.min_def]
      split_ifs <;> omega
    · by_cases h2 : rp ≠ []
      · have hc : cp = [] ∨ rc < cc := by
          by_cases hcp : cp = []
          · exact Or.inl hcp
          · right
            by_contra hlt
            exact h1 ⟨hcp, Or.inl (by omega)⟩
        rw [topUp_real_step r cp rp op sel cc rc h2 hc, ih]
        have hrp : 0 < rp.length := List.length_pos.2 h2
        simp only [List.length_append, List.length_dropLast, List.length_cons,
          List.length_nil]
        rw [Nat.min_def, Nat.min_def]
        split_ifs <;> omega
      · have hcp : cp = [] := by
          by_contra hcp
          exact h1 ⟨hcp, Or.inr (by simpa using h2)⟩
        have hrp : rp = [] := by simpa using h2
        subst hcp; subst hrp
        by_cases h3 : op ≠ []
        · rw [topUp_other_step r [] [] op sel cc rc rfl rfl h3, ih]
          have hop : 0 < op.length := List.length_pos.2 h3
          simp only [List.length_append, List.length_dropLast, List.length_cons,
            List.length_nil]
          rw [Nat.min_def, Nat.min_def]
          split_ifs <;> omega
        · have hop : op = [] := by simpa using h3
          subst hop
          simp [topUp_stop]

theorem topUp_sel_subperm (r : Nat) :
    ∀ (cp rp op sel : List String) (cc rc : Nat),
      (topUp r cp rp op sel cc rc).1 <+~ sel ++ (cp ++ rp ++ op) := by
  induction r with
  | zero =>
    intro cp rp op sel cc rc
    exact (List.sublist_append_left sel _).subperm
  | succ r ih =>
    intro cp rp op sel cc rc
    by_cases h1 : cp ≠ [] ∧ (cc ≤ rc ∨ rp = [])
    · rw [topUp_clip_step r cp rp op sel cc rc h1.1 h1.2]
      refine Subperm.trans (ih _ _ _ _ _ _) (Perm.subperm ?_)
      rw [perm_iff_count]
      intro a
      have h := congrArg (List.count a) (dropLast_append_getLastD cp "" h1.1)
      simp only [List.count_append] at h ⊢
      omega
    · by_cases h2 : rp ≠ []
      · have hc : cp = [] ∨ rc < cc := by
          by_cases hcp : cp = []
          · exact Or.inl hcp
          · right
            by_contra hlt
            exact h1 ⟨hcp, Or.inl (by omega)⟩
        rw [topUp_real_step r cp rp op sel cc rc h2 hc]
        refine Subperm.trans (ih _ _ _ _ _ _) (Perm.subperm ?_)
        rw [perm_iff_count]
        intro a
        have h := congrArg (List.count a) (dropLast_append_getLastD rp "" h2)
        simp only [List.count_append] at h ⊢
        omega
      · have hcp : cp = [] := by
          by_contra hcp
          exact h1 ⟨hcp, Or.inr (by simpa using h2)⟩
        have hrp : rp = [] := by simpa using h2
        subst hcp; subst hrp
        by_cases h3 : op ≠ []
        · rw [topUp_other_step r [] [] op sel cc rc rfl rfl h3]
          refine Subperm.trans (ih _ _ _ _ _ _) (Perm.subperm ?_)
          rw [perm_iff_count]
          intro a
          have h := congrArg (List.count a) (dropLast_append_getLastD op "" h3)
          simp only [List.count_append] at h ⊢
          omega
        · have hop : op = [] := by simpa using h3
          subst hop
          rw [topUp_stop]
          exact (List.sublist_append_left sel _).subperm

theorem filter_singleton_true {P : String → Bool} {x : String} (h : P x = true) :
    (List.filter P [x]).length = 1 := by simp [h]

theorem filter_singleton_false {P : String → Bool} {x : String} (h : P x = false) :
    (List.filter P [x]).length = 0 := by simp [h]

theorem topUp_counters (P Q : String → Bool) (r : Nat) :
    ∀ (cp rp op sel : List String) (cc rc : Nat),
      (∀ x ∈ cp, P x = true ∧ Q x = false) →
      (∀ x ∈ rp, P x = false ∧ Q x = true) →
      (∀ x ∈ op, P x = false ∧ Q x = false) →
      (sel.filter P).length = cc →
      (sel.filter Q).length = rc →
      ((topUp r cp rp op sel cc rc).1.filter P).length =
          (topUp r cp rp op sel cc rc).2.1 ∧
        ((topUp r cp rp op sel cc rc).1.filter Q).length =
          (topUp r cp rp op sel cc rc).2.2 := by
  induction r with
  | zero =>
    intro cp rp op sel cc rc _ _ _ hP hQ
    rw [topUp_zero]
    exact ⟨hP, hQ⟩
  | succ r ih =>
    intro cp rp op sel cc rc hcp hrp hop hP hQ
    by_cases h1 : cp ≠ [] ∧ (cc ≤ rc ∨ rp = [])
    · rw [topUp_clip_step r cp rp op sel cc rc h1.1 h1.2]
      have hx : cp.getLastD "" ∈ cp := getLastD_mem cp "" h1.1
      refine ih _ _ _ _ _ _ (fun x hx' => hcp x ((List.dropLast_sublist cp).subset hx'))
        hrp hop ?_ ?_
      · rw [List.filter_append, List.length_append, hP,
          filter_singleton_true (hcp _ hx).1]
      · rw [List.filter_append, List.length_append, hQ,
          filter_singleton_false (hcp _ hx).2, Nat.add_zero]
    · by_cases h2 : rp ≠ []
      · have hc : cp = [] ∨ rc < cc := by
          by_cases hc' : cp = []
          · exact Or.inl hc'
          · right
            by_contra hlt
            exact h1 ⟨hc', Or.inl (by omega)⟩
        rw [topUp_real_step r cp rp op sel cc rc h2 hc]
        have hx : rp.getLastD "" ∈ rp := getLastD_mem rp "" h2
        refine ih _ _ _ _ _ _ hcp
          (fun x hx' => hrp x ((List.dropLast_sublist rp).subset hx')) hop ?_ ?_
        · rw [List.filter_append, List.length_append, hP,
            filter_singleton_false (hrp _ hx).1, Nat.add_zero]
        · rw [List.filter_append, List.length_append, hQ,
            filter_singleton_true (hrp _ hx).2]
      · have hc' : cp = [] := by
          by_contra hc'
          exact h1 ⟨hc', Or.inr (by simpa using h2)⟩
        have hr' : rp = [] := by simpa using h2
        subst hc'; subst hr'
        by_cases h3 : op ≠ []
        · rw [topUp_other_step r [] [] op sel cc rc rfl rfl h3]
          have hx : op.getLastD "" ∈ op := getLastD_mem op "" h3
          refine ih _ _ _ _ _ _ (by simp) (by simp)
            (fun x hx' => hop x ((List.dropLast_sublist op).subset hx')) ?_ ?_
          · rw [List.filter_append, List.length_append, hP,
              filter_singleton_false (hop _ hx).1, Nat.add_zero]
          · rw [List.filter_append, List.length_append, hQ,
              filter_singleton_false (hop _ hx).2, Nat.add_zero]
        · have hop' : op = [] := by simpa using h3
          subst hop'
          rw [topUp_stop]
          exact ⟨hP, hQ⟩


/-! ### `selectCore` -/

theorem clipQuotas_sum (t nc nr : Nat) :
    (clipQuotas t nc nr).1 + (clipQuotas t nc nr).2 = t := by
  simp only [clipQuotas]
  split_ifs with h
  · show (t - t / 2) + t / 2 = t
    omega
  · show t / 2 + (t - t / 2) = t
    omega

theorem topUp_counters_empty_news (r : Nat) :
    ∀ (op sel : List String) (cc rc : Nat),
      (topUp r [] [] op sel cc rc).2.1 = cc ∧ (topUp r [] [] op sel cc rc).2.2 = rc := by
  induction r with
  | zero =>
    intro op sel cc rc
    rw [topUp_zero]
    exact ⟨rfl, rfl⟩
  | succ r ih =>
    intro op sel cc rc
    by_cases h : op = []
    · subst h
      rw [topUp_stop]
      exact ⟨rfl, rfl⟩
    · rw [topUp_other_step r [] [] op sel cc rc rfl rfl h]
      exact ih _ _ _ _

theorem filter_eq_nil_of_false {P : String → Bool} {l : List String}
    (h : ∀ a ∈ l, P a = false) : l.filter P = [] := by
  rw [List.filter_eq_nil_iff]
  intro a ha
  simp [h a ha]

theorem selectCore_sel_length (t : Nat) (cp rp op : List String) :
    (selectCore t cp rp op).1.length = min t (cp.length + rp.length + op.length) := by
  have hsum := clipQuotas_sum t cp.length rp.length
  simp only [selectCore, List.length_append, popTake_fst_length]
  rw [topUp_sel_length]
  simp only [List.length_append, popTake_fst_length, popTake_snd_length]
  omega

theorem selectCore_sel_subperm (t : Nat) (cp rp op : List String) :
    (selectCore t cp rp op).1 <+~ cp ++ rp ++ op := by
  simp only [selectCore]
  refine Subperm.trans (topUp_sel_subperm _ _ _ _ _ _ _) (Perm.subperm ?_)
  rw [perm_iff_count]
  intro a
  have hc1 := popTake_count (min (clipQuotas t cp.length rp.length).1 cp.length) cp a
  have hc2 := popTake_count (min (clipQuotas t cp.length rp.length).2 rp.length) rp a
  simp only [List.count_append] at hc1 hc2 ⊢
  omega

theorem selectCore_counters (P Q : String → Bool) (t : Nat) (cp rp op : List String)
    (hcp : ∀ x ∈ cp, P x = true ∧ Q x = false)
    (hrp : ∀ x ∈ rp, P x = false ∧ Q x = true)
    (hop : ∀ x ∈ op, P x = false ∧ Q x = false) :
    ((selectCore t cp rp op).1.filter P).length = (selectCore t cp rp op).2.1 ∧
      ((selectCore t cp rp op).1.filter Q).length = (selectCore t cp rp op).2.2 := by
  simp only [selectCore]
  apply topUp_counters
  · intro x hx
    exact hcp x (popTake_snd_mem hx)
  · intro x hx
    exact hrp x (popTake_snd_mem hx)
  · exact hop
  · rw [List.filter_append, List.length_append,
      List.filter_eq_self.mpr (fun a ha => (hcp a (popTake_fst_mem ha)).1),
      filter_eq_nil_of_false (fun a ha => (hrp a (popTake_fst_mem ha)).1)]
    simp only [List.length_nil, popTake_fst_length]
    omega
  · rw [List.filter_append, List.length_append,
      filter_eq_nil_of_false (fun a ha => (hcp a (popTake_fst_mem ha)).2),
      List.filter_eq_self.mpr (fun a ha => (hrp a (popTake_fst_mem ha)).2)]
    simp only [List.length_nil, popTake_fst_length]
    omega

theorem selectCore_balance (t : Nat) (cp rp op : List String)
    (h1 : t / 2 ≤ cp.length) (h2 : t / 2 ≤ rp.length) :
    (selectCore t cp rp op).2.1 ≤ (selectCore t cp rp op).2.2 + 1 ∧
      (selectCore t cp rp op).2.2 ≤ (selectCore t cp rp op).2.1 + 1 := by
  simp only [selectCore, List.length_append, popTake_fst_length]
  generalize hq : clipQuotas t cp.length rp.length = qq
  obtain ⟨q1, q2⟩ := qq
  have hfacts : (¬(t % 2 ≠ 0 ∧ rp.length < cp.length) ∧ q1 = t / 2 ∧ q2 = t - t / 2) ∨
      (t % 2 = 1 ∧ rp.length < cp.length ∧ q1 = t - t / 2 ∧ q2 = t / 2) := by
    simp only [clipQuotas] at hq
    by_cases hc : t % 2 ≠ 0 ∧ rp.length < cp.length
    · rw [if_pos hc] at hq
      have e1 := congrArg Prod.fst hq
      have e2 := congrArg Prod.snd hq
      simp only at e1 e2
      right
      exact ⟨by omega, hc.2, e1.symm, e2.symm⟩
    · rw [if_neg hc] at hq
      have e1 := congrArg Prod.fst hq
      have e2 := congrArg Prod.snd hq
      simp only at e1 e2
      left
      exact ⟨hc, e1.symm, e2.symm⟩
  have hcase : (t - (min (min q1 cp.length) cp.length + min (min q2 rp.length) rp.length) = 0) ∨
      (cp.length - min q1 cp.length = 0 ∧ rp.length - min q2 rp.length = 0 ∧
        min q1 cp.length = min q2 rp.length) := by
    omega
  rcases hcase with h0 | ⟨e1, e2, e3⟩
  · rw [h0, topUp_zero]
    show min q1 cp.length ≤ min q2 rp.length + 1 ∧ min q2 rp.length ≤ min q1 cp.length + 1
    omega
  · have hcp2 : (popTake (min q1 cp.length) cp).2 = [] := by
      apply List.eq_nil_of_length_eq_zero
      rw [popTake_snd_length]
      omega
    have hrp2 : (popTake (min q2 rp.length) rp).2 = [] := by
      apply List.eq_nil_of_length_eq_zero
      rw [popTake_snd_length]
      omega
    rw [hcp2, hrp2]
    obtain ⟨hA, hB⟩ := topUp_counters_empty_news
      (t - (min (min q1 cp.length) cp.length + min (min q2 rp.length) rp.length)) op
      ((popTake (min q1 cp.length) cp).1 ++ (popTake (min q2 rp.length) rp).1)
      (min q1 cp.length) (min q2 rp.length)
    rw [hA, hB]
    omega

/-! ### Partition of a pool into the three category pools -/

theorem news_disjoint (f : String) (h : isNewsClipFile f = true) :
    isNewsRealFile f = false := by
  by_contra hq
  have hq' : isNewsRealFile f = true := by
    cases hqv : isNewsRealFile f
    · exact absurd hqv hq
    · rfl
  unfold isNewsClipFile at h
  unfold isNewsRealFile at hq'
  rw [decide_eq_true_eq] at h hq'
  have : "news_clip_".data = "news_real_".data := by rw [← h, hq']
  exact absurd this (by decide)

theorem count_filter_ite (p : String → Bool) (l : List String) (a : String) :
    (l.filter p).count a = if p a then l.count a else 0 := by
  split_ifs with h
  · exact List.count_filter h
  · rw [List.count_eq_zero]
    intro hm
    exact h (List.mem_filter.1 hm).2

theorem partition_perm (P Q : String → Bool) (hd : ∀ f, P f = true → Q f = false)
    (l : List String) :
    l.filter P ++ l.filter Q ++ l.filter (fun f => !P f && !Q f) ~ l := by
  rw [perm_iff_count]
  intro x
  simp only [List.count_append, count_filter_ite]
  cases hP : P x with
  | true =>
    have hQ := hd x hP
    simp [hP, hQ]
  | false =>
    cases hQ : Q x with
    | true => simp [hP, hQ]
    | false => simp [hP, hQ]

theorem other_pool_eq (l : List String) :
    (l.filter fun f => !(l.filter isNewsClipFile ++ l.filter isNewsRealFile).contains f) =
      l.filter fun f => !isNewsClipFile f && !isNewsRealFile f := by
  apply List.filter_congr
  intro f hf
  rcases hP : isNewsClipFile f with _ | _
  · rcases hQ : isNewsRealFile f with _ | _
    · have : f ∉ l.filter isNewsClipFile ++ l.filter isNewsRealFile := by
        intro hm
        rcases List.mem_append.1 hm with hm1 | hm1
        · rw [(List.mem_filter.1 hm1).2] at hP
          exact absurd hP (by decide)
        · rw [(List.mem_filter.1 hm1).2] at hQ
          exact absurd hQ (by decide)
      simp [hP, hQ, List.elem_iff, this]
    · have : f ∈ l.filter isNewsClipFile ++ l.filter isNewsRealFile :=
        List.mem_append.2 (Or.inr (List.mem_filter.2 ⟨hf, hQ⟩))
      simp [hP, hQ, List.elem_iff, this]
  · have : f ∈ l.filter isNewsClipFile ++ l.filter isNewsRealFile :=
      List.mem_append.2 (Or.inl (List.mem_filter.2 ⟨hf, hP⟩))
    simp [hP, List.elem_iff, this]

theorem subperm_map {α β : Type} (g : α → β) {l1 l2 : List α} (h : l1 <+~ l2) :
    l1.map g <+~ l2.map g := by
  obtain ⟨w, hw, hs⟩ := h
  exact ⟨w.map g, hw.map g, hs.map g⟩

theorem subperm_nodup {α : Type} {l1 l2 : List α} (h : l1 <+~ l2) (h2 : l2.Nodup) :
    l1.Nodup := by
  obtain ⟨w, hw, hs⟩ := h
  exact hw.nodup_iff.1 (h2.sublist hs)

/-! ### `selectFromPool` -/

theorem selectFromPool_length {s : Nat → List String → List String}
    (hs : FairShuffle s) (b t : Nat) (files : List String) :
    (selectFromPool s b t files).length = min t files.length := by
  have hperm := partition_perm isNewsClipFile isNewsRealFile news_disjoint files
  have hlen := hperm.length_eq
  simp only [List.length_append] at hlen
  simp only [selectFromPool, selectFromPoolFull]
  rw [(hs (b + 3) _).length_eq, selectCore_sel_length,
    (hs b _).length_eq, (hs (b + 1) _).length_eq, (hs (b + 2) _).length_eq,
    other_pool_eq]
  omega

theorem selectFromPool_subperm {s : Nat → List String → List String}
    (hs : FairShuffle s) (b t : Nat) (files : List String) :
    selectFromPool s b t files <+~ files := by
  have hperm := partition_perm isNewsClipFile isNewsRealFile news_disjoint files
  simp only [selectFromPool, selectFromPoolFull]
  refine Subperm.trans (Perm.subperm (hs (b + 3) _)) ?_
  refine Subperm.trans (selectCore_sel_subperm _ _ _ _) (Perm.subperm ?_)
  calc s b (files.filter isNewsClipFile) ++ s (b + 1) (files.filter isNewsRealFile) ++
        s (b + 2) (files.filter fun f =>
          !(files.filter isNewsClipFile ++ files.filter isNewsRealFile).contains f)
      ~ files.filter isNewsClipFile ++ files.filter isNewsRealFile ++
          (files.filter fun f =>
            !(files.filter isNewsClipFile ++ files.filter isNewsRealFile).contains f) :=
        Perm.append (Perm.append (hs b _) (hs (b + 1) _)) (hs (b + 2) _)
    _ ~ files := by rw [other_pool_eq]; exact hperm

theorem selectFromPool_subset {s : Nat → List String → List String}
    (hs : FairShuffle s) (b t : Nat) (files : List String) :
    ∀ x ∈ selectFromPool s b t files, x ∈ files :=
  fun _ hx => (selectFromPool_subperm hs b t files).subset hx

theorem selectFromPool_base_nodup {s : Nat → List String → List String}
    (hs : FairShuffle s) (b t : Nat) (files : List String)
    (h : (files.map base_name).Nodup) :
    ((selectFromPool s b t files).map base_name).Nodup :=
  subperm_nodup (subperm_map base_name (selectFromPool_subperm hs b t files)) h

theorem selectFromPool_filter_counts {s : Nat → List String → List String}
    (hs : FairShuffle s) (b t : Nat) (files : List String) :
    ((selectFromPool s b t files).filter isNewsClipFile).length =
        (selectFromPoolFull s b t files).2.1 ∧
      ((selectFromPool s b t files).filter isNewsRealFile).length =
        (selectFromPoolFull s b t files).2.2 := by
  simp only [selectFromPool, selectFromPoolFull]
  constructor
  · rw [((hs (b + 3) _).filter isNewsClipFile).length_eq]
    refine (selectCore_counters isNewsClipFile isNewsRealFile t _ _ _ ?_ ?_ ?_).1
    · intro x hx
      have hx' := (hs b _).mem_iff.1 hx
      have hP := (List.mem_filter.1 hx').2
      exact ⟨hP, news_disjoint x hP⟩
    · intro x hx
      have hx' := (hs (b + 1) _).mem_iff.1 hx
      have hQ := (List.mem_filter.1 hx').2
      refine ⟨?_, hQ⟩
      cases hP : isNewsClipFile x
      · rfl
      · rw [news_disjoint x hP] at hQ
        exact absurd hQ (by decide)
    · intro x hx
      have hx' := (hs (b + 2) _).mem_iff.1 hx
      rw [other_pool_eq] at hx'
      have hPQ := (List.mem_filter.1 hx').2
      rw [Bool.and_eq_true, Bool.not_eq_true', Bool.not_eq_true'] at hPQ
      exact hPQ
  · rw [((hs (b + 3) _).filter isNewsRealFile).length_eq]
    refine (selectCore_counters isNewsClipFile isNewsRealFile t _ _ _ ?_ ?_ ?_).2
    · intro x hx
      have hx' := (hs b _).mem_iff.1 hx
      have hP := (List.mem_filter.1 hx').2
      exact ⟨hP, news_disjoint x hP⟩
    · intro x hx
      have hx' := (hs (b + 1) _).mem_iff.1 hx
      have hQ := (List.mem_filter.1 hx').2
      refine ⟨?_, hQ⟩
      cases hP : isNewsClipFile x
      · rfl
      · rw [news_disjoint x hP] at hQ
        exact absurd hQ (by decide)
    · intro x hx
      have hx' := (hs (b + 2) _).mem_iff.1 hx
      rw [other_pool_eq] at hx'
      have hPQ := (List.mem_filter.1 hx').2
      rw [Bool.and_eq_true, Bool.not_eq_true', Bool.not_eq_true'] at hPQ
      exact hPQ

theorem selectFromPool_balance {s : Nat → List String → List String}
    (hs : FairShuffle s) (b t : Nat) (files : List String)
    (hc : t / 2 ≤ (files.filter isNewsClipFile).length)
    (hr : t / 2 ≤ (files.filter isNewsRealFile).length) :
    ((selectFromPool s b t files).filter isNewsClipFile).length ≤
        ((selectFromPool s b t files).filter isNewsRealFile).length + 1 ∧
      ((selectFromPool s b t files).filter isNewsRealFile).length ≤
        ((selectFromPool s b t files).filter isNewsClipFile).length + 1 := by
  obtain ⟨e1, e2⟩ := selectFromPool_filter_counts hs b t files
  rw [e1, e2]
  simp only [selectFromPoolFull]
  refine selectCore_balance t _ _ _ ?_ ?_
  · rw [(hs b _).length_eq]
    exact hc
  · rw [(hs (b + 1) _).length_eq]
    exact hr

/-! ### `fileGroups` and `filter_speed_duplicates` -/

/-- Well-formedness of the `file_groups` dictionary with respect to the
files inserted so far: keys are distinct, each group holds exactly the files
whose `base_name` is its key (in input order, hence nonempty), and every
inserted file's `base_name` occurs as a key. -/
def GroupsWF (files : List String) (gs : List (String × List String)) : Prop :=
  (gs.map Prod.fst).Nodup ∧
  (∀ g ∈ gs, g.2 = files.filter (fun f => base_name f == g.1) ∧ g.2 ≠ []) ∧
  (∀ f ∈ files, base_name f ∈ gs.map Prod.fst)

theorem insertGroup_keys_of_mem (gs : List (String × List String)) (k p : String)
    (h : k ∈ gs.map Prod.fst) :
    (insertGroup gs k p).map Prod.fst = gs.map Prod.fst := by
  induction gs with
  | nil => simp at h
  | cons g rest ih =>
    obtain ⟨k', v'⟩ := g
    by_cases hk : k' = k
    · simp [insertGroup, hk]
    · have h' : k ∈ rest.map Prod.fst := by
        rw [List.map_cons] at h
        rcases List.mem_cons.1 h with h1 | h1
        · exact absurd h1.symm hk
        · exact h1
      simp [insertGroup, hk, ih h']

theorem insertGroup_of_not_mem (gs : List (String × List String)) (k p : String)
    (h : k ∉ gs.map Prod.fst) :
    insertGroup gs k p = gs ++ [(k, [p])] := by
  induction gs with
  | nil => simp [insertGroup]
  | cons g rest ih =>
    obtain ⟨k', v'⟩ := g
    have hk : ¬(k' = k) := by
      intro e
      exact h (by simp [e])
    have h' : k ∉ rest.map Prod.fst := fun hm => h (by simp [hm])
    simp [insertGroup, hk, ih h']

theorem insertGroup_mem_elim (gs : List (String × List String)) (k p : String)
    (g' : String × List String) (hnd : (gs.map Prod.fst).Nodup)
    (h : g' ∈ insertGroup gs k p) :
    (g' ∈ gs ∧ g'.1 ≠ k) ∨ (∃ v, (k, v) ∈ gs ∧ g' = (k, v ++ [p])) ∨
      (g' = (k, [p]) ∧ k ∉ gs.map Prod.fst) := by
  induction gs with
  | nil =>
    simp only [insertGroup] at h
    right; right
    exact ⟨List.mem_singleton.1 h, by simp⟩
  | cons g rest ih =>
    obtain ⟨k', v'⟩ := g
    rw [List.map_cons] at hnd
    have hnd' : (rest.map Prod.fst).Nodup := hnd.of_cons
    have hknotin : k' ∉ rest.map Prod.fst := by
      have := List.nodup_cons.1 hnd
      exact this.1
    by_cases hk : k' = k
    · subst hk
      simp only [insertGroup, if_pos rfl] at h
      rcases List.mem_cons.1 h with h1 | h1
      · right; left
        exact ⟨v', List.mem_cons_self _ _, h1⟩
      · left
        refine ⟨List.mem_cons_of_mem _ h1, ?_⟩
        intro e
        exact hknotin (e ▸ List.mem_map.2 ⟨g', h1, rfl⟩)
    · simp only [insertGroup, if_neg hk] at h
      rcases List.mem_cons.1 h with h1 | h1
      · left
        refine ⟨by rw [h1]; exact List.mem_cons_self _ _, ?_⟩
        rw [h1]
        exact hk
      · rcases ih hnd' h1 with ⟨ha, hb⟩ | ⟨v, hv1, hv2⟩ | ⟨ha, hb⟩
        · exact Or.inl ⟨List.mem_cons_of_mem _ ha, hb⟩
        · exact Or.inr (Or.inl ⟨v, List.mem_cons_of_mem _ hv1, hv2⟩)
        · refine Or.inr (Or.inr ⟨ha, ?_⟩)
          intro hm
          rw [List.map_cons] at hm
          rcases List.mem_cons.1 hm with h2 | h2
          · exact hk h2.symm
          · exact hb h2

theorem insertGroup_wf (files : List String) (gs : List (String × List String))
    (f : String) (hwf : GroupsWF files gs) :
    GroupsWF (files ++ [f]) (insertGroup gs (base_name f) f) := by
  obtain ⟨hnd, hval, hcov⟩ := hwf
  by_cases hmem : base_name f ∈ gs.map Prod.fst
  · refine ⟨?_, ?_, ?_⟩
    · rw [insertGroup_keys_of_mem _ _ _ hmem]
      exact hnd
    · intro g' hg'
      rcases insertGroup_mem_elim gs _ f g' hnd hg' with ⟨h1, h2⟩ | ⟨v, hv1, hv2⟩ | ⟨h1, h2⟩
      · obtain ⟨he, hne⟩ := hval g' h1
        refine ⟨?_, hne⟩
        rw [List.filter_append]
        have hz : List.filter (fun x => base_name x == g'.1) [f] = [] := by
          simp [beq_eq_false_iff_ne.2 (fun e => h2 e.symm)]
        rw [hz, List.append_nil]
        exact he
      · obtain ⟨he, -⟩ := hval _ hv1
        have he' : v = files.filter (fun x => base_name x == base_name f) := by
          simpa using he
        rw [hv2]
        refine ⟨?_, by simp⟩
        simp only
        rw [List.filter_append]
        have ho : List.filter (fun x => base_name x == base_name f) [f] = [f] := by simp
        rw [ho, he']
      · exact absurd hmem h2
    · intro x hx
      rw [insertGroup_keys_of_mem _ _ _ hmem]
      rcases List.mem_append.1 hx with hx | hx
      · exact hcov x hx
      · rw [List.mem_singleton.1 hx]
        exact hmem
  · rw [insertGroup_of_not_mem _ _ _ hmem]
    refine ⟨?_, ?_, ?_⟩
    · rw [List.map_append]
      refine hnd.append (by simp) ?_
      intro a ha hb
      simp only [List.map_cons, List.map_nil, List.mem_singleton] at hb
      rw [hb] at ha
      exact hmem ha
    · intro g' hg'
      rcases List.mem_append.1 hg' with hg' | hg'
      · obtain ⟨he, hne⟩ := hval g' hg'
        refine ⟨?_, hne⟩
        rw [List.filter_append]
        have hne2 : base_name f ≠ g'.1 := by
          intro e
          exact hmem (e ▸ List.mem_map.2 ⟨g', hg', rfl⟩)
        have hz : List.filter (fun x => base_name x == g'.1) [f] = [] := by
          simp [beq_eq_false_iff_ne.2 hne2]
        rw [hz, List.append_nil]
        exact he
      · rw [List.mem_singleton.1 hg']
        refine ⟨?_, by simp⟩
        simp only
        rw [List.filter_append]
        have h0 : files.filter (fun x => base_name x == base_name f) = [] := by
          apply filter_eq_nil_of_false
          intro a ha
          cases hb : (base_name a == base_name f)
          · rfl
          · exact absurd ((beq_iff_eq.mp hb) ▸ hcov a ha) hmem
        rw [h0]
        simp
    · intro x hx
      rw [List.map_append]
      rcases List.mem_append.1 hx with hx | hx
      · exact List.mem_append.2 (Or.inl (hcov x hx))
      · refine List.mem_append.2 (Or.inr ?_)
        rw [List.mem_singleton.1 hx]
        simp

theorem fileGroups_wf (files : List String) : GroupsWF files (fileGroups files) := by
  induction files using List.reverseRecOn with
  | nil =>
    refine ⟨by simp [fileGroups], ?_, by simp⟩
    intro g hg
    simp [fileGroups] at hg
  | append_singleton files f ih =>
    have he : fileGroups (files ++ [f]) = insertGroup (fileGroups files) (base_name f) f := by
      simp [fileGroups, List.foldl_append]
    rw [he]
    exact insertGroup_wf files _ f ih

theorem chooseGroups_length (c : Nat → List String → String) :
    ∀ (gs : List (String × List String)) (n : Nat),
      (chooseGroups c n gs).length = gs.length := by
  intro gs
  induction gs with
  | nil => intro n; rfl
  | cons g rest ih => intro n; simp [chooseGroups, ih]

theorem chooseGroups_map_base {c : Nat → List String → String} (hc : FairChoice c) :
    ∀ (gs : List (String × List String)) (n : Nat),
      (∀ g ∈ gs, g.2 ≠ [] ∧ ∀ x ∈ g.2, base_name x = g.1) →
      (chooseGroups c n gs).map base_name = gs.map Prod.fst := by
  intro gs
  induction gs with
  | nil => intro n _; rfl
  | cons g rest ih =>
    intro n h
    obtain ⟨hne, hbase⟩ := h g (List.mem_cons_self _ _)
    simp only [chooseGroups, List.map_cons]
    rw [hbase _ (hc n g.2 hne), ih (n + 1) (fun g' hg' => h g' (List.mem_cons_of_mem _ hg'))]

theorem chooseGroups_mem_sub {c : Nat → List String → String} (hc : FairChoice c) :
    ∀ (gs : List (String × List String)) (n : Nat),
      (∀ g ∈ gs, g.2 ≠ []) →
      ∀ x ∈ chooseGroups c n gs, ∃ g ∈ gs, x ∈ g.2 := by
  intro gs
  induction gs with
  | nil => intro n _ x hx; simp [chooseGroups] at hx
  | cons g rest ih =>
    intro n h x hx
    rcases List.mem_cons.1 hx with h1 | h1
    · exact ⟨g, List.mem_cons_self _ _, h1 ▸ hc n g.2 (h g (List.mem_cons_self _ _))⟩
    · obtain ⟨g', hg', hxg'⟩ := ih (n + 1) (fun g' hg' => h g' (List.mem_cons_of_mem _ hg')) x h1
      exact ⟨g', List.mem_cons_of_mem _ hg', hxg'⟩

theorem chooseGroups_singleton_mem {c : Nat → List String → String} (hc : FairChoice c) :
    ∀ (gs : List (String × List String)) (n : Nat) (k x : String),
      (k, [x]) ∈ gs → x ∈ chooseGroups c n gs := by
  intro gs
  induction gs with
  | nil => intro n k x h; simp at h
  | cons g rest ih =>
    intro n k x h
    rcases List.mem_cons.1 h with h1 | h1
    · rw [← h1]
      show x ∈ c n [x] :: chooseGroups c (n + 1) rest
      have hm : c n [x] = x := List.mem_singleton.1 (hc n [x] (by simp))
      rw [hm]
      exact List.mem_cons_self _ _
    · exact List.mem_cons_of_mem _ (ih (n + 1) k x h1)

theorem fsd_map_base {c : Nat → List String → String} (hc : FairChoice c)
    (files : List String) :
    (filter_speed_duplicates c files).map base_name = (fileGroups files).map Prod.fst := by
  apply chooseGroups_map_base hc
  intro g hg
  obtain ⟨he, hne⟩ := (fileGroups_wf files).2.1 g hg
  refine ⟨hne, fun x hx => ?_⟩
  rw [he] at hx
  exact beq_iff_eq.mp (List.mem_filter.1 hx).2

theorem fsd_base_nodup {c : Nat → List String → String} (hc : FairChoice c)
    (files : List String) :
    ((filter_speed_duplicates c files).map base_name).Nodup := by
  rw [fsd_map_base hc files]
  exact (fileGroups_wf files).1

theorem fsd_subset {c : Nat → List String → String} (hc : FairChoice c)
    (files : List String) :
    ∀ x ∈ filter_speed_duplicates c files, x ∈ files := by
  intro x hx
  obtain ⟨g, hg, hxg⟩ := chooseGroups_mem_sub hc (fileGroups files) 0
    (fun g hg => ((fileGroups_wf files).2.1 g hg).2) x hx
  rw [((fileGroups_wf files).2.1 g hg).1] at hxg
  exact (List.mem_filter.1 hxg).1

theorem fsd_length (c : Nat → List String → String) (files : List String) :
    (filter_speed_duplicates c files).length = (fileGroups files).length :=
  chooseGroups_length c (fileGroups files) 0

theorem fileGroups_keys_mem_iff (files : List String) (b : String) :
    b ∈ (fileGroups files).map Prod.fst ↔ b ∈ files.map base_name := by
  constructor
  · intro hb
    obtain ⟨g, hg, he⟩ := List.mem_map.1 hb
    obtain ⟨hv, hne⟩ := (fileGroups_wf files).2.1 g hg
    obtain ⟨x, hx⟩ := List.exists_mem_of_ne_nil _ hne
    rw [hv] at hx
    refine List.mem_map.2 ⟨x, (List.mem_filter.1 hx).1, ?_⟩
    rw [beq_iff_eq.mp (List.mem_filter.1 hx).2, he]
  · intro hb
    obtain ⟨f, hf, he⟩ := List.mem_map.1 hb
    exact he ▸ (fileGroups_wf files).2.2 f hf

theorem fsd_count {c : Nat → List String → String} (hc : FairChoice c)
    (files : List String) (b : String) :
    ((filter_speed_duplicates c files).map base_name).count b =
      if b ∈ files.map base_name then 1 else 0 := by
  rw [fsd_map_base hc files]
  split_ifs with h
  · exact List.count_eq_one_of_mem (fileGroups_wf files).1
      ((fileGroups_keys_mem_iff files b).2 h)
  · exact List.count_eq_zero.2 (fun hm => h ((fileGroups_keys_mem_iff files b).1 hm))

theorem fsd_distinct_length (c : Nat → List String → String)
    (files : List String) :
    (filter_speed_duplicates c files).length = (files.map base_name).dedup.length := by
  rw [fsd_length]
  have h1 : (fileGroups files).map Prod.fst ~ (files.map base_name).dedup := by
    refine (List.perm_ext_iff_of_nodup (fileGroups_wf files).1 (List.nodup_dedup _)).2 ?_
    intro a
    rw [List.mem_dedup]
    exact fileGroups_keys_mem_iff files a
  have h2 := h1.length_eq
  simpa using h2

theorem fsd_retain_unique {c : Nat → List String → String} (hc : FairChoice c)
    (files : List String) (f : String) (hf : f ∈ files)
    (hcount : (files.map base_name).count (base_name f) = 1) :
    f ∈ filter_speed_duplicates c files := by
  obtain ⟨hnd, hval, hcov⟩ := fileGroups_wf files
  obtain ⟨g, hg, hgk⟩ := List.mem_map.1 (hcov f hf)
  obtain ⟨he, hne⟩ := hval g hg
  have hfin : f ∈ g.2 := by
    rw [he]
    refine List.mem_filter.2 ⟨hf, ?_⟩
    rw [hgk]
    exact beq_self_eq_true _
  have hlen : g.2.length = 1 := by
    rw [he]
    have hcp : (files.filter (fun x => base_name x == g.1)).length =
        (files.map base_name).count g.1 := by
      rw [← List.countP_eq_length_filter]
      show files.countP (fun x => base_name x == g.1) = (files.map base_name).countP (· == g.1)
      rw [List.countP_map]
      rfl
    rw [hcp, hgk, hcount]
  have hsingle : g.2 = [f] := by
    cases g2 : g.2 with
    | nil =>
      rw [g2] at hlen
      simp at hlen
    | cons a t =>
      rw [g2] at hlen hfin
      have ht : t = [] := by
        simp only [List.length_cons] at hlen
        exact List.eq_nil_of_length_eq_zero (by omega)
      subst ht
      rw [List.mem_singleton.1 hfin]
  have hgpair : (g.1, [f]) ∈ fileGroups files := by
    rw [← hsingle, Prod.mk.eta]
    exact hg
  exact chooseGroups_singleton_mem hc (fileGroups files) 0 g.1 f hgpair

/-! ### Lower-casing -/

theorem lowerChar_lowerChar (c : Char) : lowerChar (lowerChar c) = lowerChar c := by
  unfold lowerChar
  by_cases h : 65 ≤ c.toNat ∧ c.toNat ≤ 90
  · rw [if_pos h]
    have hv : (c.toNat + 32).isValidChar := by
      left
      have h2 : c.toNat ≤ 90 := h.2
      omega
    have ht : (Char.ofNat (c.toNat + 32)).toNat = c.toNat + 32 := by
      unfold Char.ofNat
      rw [dif_pos hv]
      rfl
    rw [if_neg]
    intro hcon
    rw [ht] at hcon
    omega
  · rw [if_neg h, if_neg h]

theorem lowerStr_idem (s : String) : lowerStr (lowerStr s) = lowerStr s := by
  unfold lowerStr
  simp only [List.map_map]
  congr 1
  apply List.map_congr_left
  intro c _
  exact lowerChar_lowerChar c

/-! ### The language map of `get_all_audio_files` -/

theorem lookupLang_dictInsert (m : List (String × List String)) (k : String)
    (v : List String) (key : String) :
    lookupLang (dictInsert m k v) key = if key = k then some v else lookupLang m key := by
  induction m with
  | nil =>
    simp only [dictInsert, lookupLang]
    by_cases h : k = key
    · rw [if_pos h, if_pos h.symm]
    · rw [if_neg h, if_neg (fun e => h e.symm)]
  | cons g rest ih =>
    obtain ⟨k', v'⟩ := g
    by_cases h : k' = k
    · subst h
      simp only [dictInsert, if_pos rfl, lookupLang]
      split_ifs with h2 h3 h3
      · rfl
      · exact absurd h2.symm h3
      · exact absurd h3.symm h2
      · rfl
    · simp only [dictInsert, if_neg h, lookupLang, ih]
      split_ifs with h2 h3 h3
      · exact absurd (h2.trans h3) h
      · rfl
      · rfl
      · rfl

theorem dictInsert_mem (m : List (String × List String)) (k : String) (v : List String)
    (kv : String × List String) (h : kv ∈ dictInsert m k v) :
    kv ∈ m ∨ kv.1 = k := by
  induction m with
  | nil =>
    simp only [dictInsert] at h
    right
    rw [List.mem_singleton.1 h]
  | cons g rest ih =>
    obtain ⟨k', v'⟩ := g
    by_cases hk : k' = k
    · simp only [dictInsert, if_pos hk] at h
      rcases List.mem_cons.1 h with h1 | h1
      · right
        rw [h1]
      · exact Or.inl (List.mem_cons_of_mem _ h1)
    · simp only [dictInsert, if_neg hk] at h
      rcases List.mem_cons.1 h with h1 | h1
      · exact Or.inl (h1 ▸ List.mem_cons_self _ _)
      · rcases ih h1 with h2 | h2
        · exact Or.inl (List.mem_cons_of_mem _ h2)
        · exact Or.inr h2

theorem buildLangMap_lookup (choice : Nat → Nat → List String → String) :
    ∀ (rest : List (String × List String)) (i : Nat)
      (m : List (String × List String)) (key : String) (v : List String),
      lookupLang (buildLangMap choice i m rest) key = some v →
      lookupLang m key = some v ∨
        ∃ j lf, v = filter_speed_duplicates (choice j) lf := by
  intro rest
  induction rest with
  | nil =>
    intro i m key v h
    exact Or.inl h
  | cons hd tl ih =>
    intro i m key v h
    obtain ⟨item, files⟩ := hd
    simp only [buildLangMap] at h
    by_cases hg : 0 < ((files.filter hasAudioExt).map
        (fun file => "audio/" ++ item ++ "/" ++ file)).length
    · rw [if_pos hg] at h
      rcases ih _ _ _ _ h with h1 | h1
      · rw [lookupLang_dictInsert] at h1
        by_cases hkey : key = lowerStr item
        · rw [if_pos hkey] at h1
          right
          exact ⟨i + 1, _, (Option.some.injEq _ _ ▸ h1).symm⟩
        · rw [if_neg hkey] at h1
          exact Or.inl h1
      · exact Or.inr h1
    · rw [if_neg hg] at h
      exact ih _ _ _ _ h

theorem buildLangMap_keys_lower (choice : Nat → Nat → List String → String) :
    ∀ (rest : List (String × List String)) (i : Nat)
      (m : List (String × List String)),
      (∀ kv ∈ m, lowerStr kv.1 = kv.1) →
      ∀ kv ∈ buildLangMap choice i m rest, lowerStr kv.1 = kv.1 := by
  intro rest
  induction rest with
  | nil =>
    intro i m hm kv hkv
    exact hm kv hkv
  | cons hd tl ih =>
    intro i m hm kv hkv
    obtain ⟨item, files⟩ := hd
    simp only [buildLangMap] at hkv
    by_cases hg : 0 < ((files.filter hasAudioExt).map
        (fun file => "audio/" ++ item ++ "/" ++ file)).length
    · rw [if_pos hg] at hkv
      refine ih _ _ ?_ kv hkv
      intro kv' hkv'
      rcases dictInsert_mem _ _ _ kv' hkv' with h1 | h1
      · exact hm kv' h1
      · rw [h1]
        exact lowerStr_idem item
    · rw [if_neg hg] at hkv
      exact ih _ _ hm kv hkv

theorem get_all_general (choice : Nat → Nat → List String → String) (d : DirListing) :
    (get_all_audio_files choice d).general =
      filter_speed_duplicates (choice 0)
        ((d.rootFiles.filter hasAudioExt).map fun file => "audio/" ++ file) := rfl

theorem get_all_lang_bucket (choice : Nat → Nat → List String → String) (d : DirListing)
    (key : String) (v : List String)
    (h : lookupLang (get_all_audio_files choice d).language_specific key = some v) :
    ∃ j lf, v = filter_speed_duplicates (choice j) lf := by
  rcases buildLangMap_lookup choice d.subdirs 0 [] key v h with h1 | h1
  · exact absurd h1 (by simp [lookupLang])
  · exact h1

theorem get_all_keys_lower (choice : Nat → Nat → List String → String) (d : DirListing) :
    ∀ kv ∈ (get_all_audio_files choice d).language_specific, lowerStr kv.1 = kv.1 := by
  intro kv hkv
  exact buildLangMap_keys_lower choice d.subdirs 0 [] (by simp) kv hkv

/-! ### `assignClips` -/

theorem enumFrom_map_fst_fn (F : Nat → String) :
    ∀ (l : List String) (n : Nat),
      (List.enumFrom n l).map (fun p => F p.1) = (List.range' n l.length).map F := by
  intro l
  induction l with
  | nil => intro n; rfl
  | cons a t ih =>
    intro n
    simp only [List.enumFrom, List.map_cons, List.length_cons, List.range'_succ]
    rw [ih (n + 1)]

theorem assignClips_map_file (sel : List String) :
    (assignClips sel).map (fun p => p.2.file) = sel := by
  simp only [assignClips, List.map_map]
  show sel.enum.map Prod.snd = sel
  simp

theorem assignClips_length (sel : List String) :
    (assignClips sel).length = sel.length := by
  simp [assignClips]

theorem assignClips_keys (sel : List String) :
    (assignClips sel).map Prod.fst =
      (List.range sel.length).map fun i => "clip_" ++ Nat.repr (i + 1) := by
  simp only [assignClips, List.map_map]
  show (List.enumFrom 0 sel).map (fun p => "clip_" ++ Nat.repr (p.1 + 1)) =
    (List.range sel.length).map fun i => "clip_" ++ Nat.repr (i + 1)
  rw [List.range_eq_range']
  exact enumFrom_map_fst_fn (fun i => "clip_" ++ Nat.repr (i + 1)) sel 0

/-! ### The two pool contributions -/

theorem generalContribution_length {s : Nat → List String → List String}
    (hs : FairShuffle s) (Nq : Nat) (cat : Catalogue) :
    (generalContribution s Nq cat).length = min Nq cat.general.length := by
  unfold generalContribution
  split_ifs with h
  · rw [selectFromPool_length hs]
    omega
  · have h0 : cat.general.length = 0 := by omega
    simp [h0]

theorem languageContribution_none {s : Nat → List String → List String}
    (Mq : Nat) (cat : Catalogue) (mt lc : Option String)
    (h : target_language mt lc = none) :
    languageContribution s Mq cat mt lc = [] := by
  simp [languageContribution, h]

theorem languageContribution_no_bucket {s : Nat → List String → List String}
    (Mq : Nat) (cat : Catalogue) (mt lc : Option String) (tl : String)
    (h : target_language mt lc = some tl)
    (h2 : lookupLang cat.language_specific (lowerStr tl) = none) :
    languageContribution s Mq cat mt lc = [] := by
  simp [languageContribution, h, h2]

theorem languageContribution_bucket {s : Nat → List String → List String}
    (Mq : Nat) (cat : Catalogue) (mt lc : Option String) (tl : String)
    (lfs : List String) (h : target_language mt lc = some tl)
    (h2 : lookupLang cat.language_specific (lowerStr tl) = some lfs) :
    languageContribution s Mq cat mt lc =
      if 0 < lfs.length then selectFromPool s 4 (min Mq lfs.length) lfs else [] := by
  simp [languageContribution, h, h2]

theorem languageContribution_length_le {s : Nat → List String → List String}
    (hs : FairShuffle s) (Mq : Nat) (cat : Catalogue) (mt lc : Option String) :
    (languageContribution s Mq cat mt lc).length ≤ Mq := by
  rcases htl : target_language mt lc with _ | tl
  · rw [languageContribution_none Mq cat mt lc htl]
    simp
  · rcases hlk : lookupLang cat.language_specific (lowerStr tl) with _ | lfs
    · rw [languageContribution_no_bucket Mq cat mt lc tl htl hlk]
      simp
    · rw [languageContribution_bucket Mq cat mt lc tl lfs htl hlk]
      split_ifs with h
      · rw [selectFromPool_length hs]
        omega
      · simp

theorem languageContribution_length_eq {s : Nat → List String → List String}
    (hs : FairShuffle s) (Mq : Nat) (cat : Catalogue) (mt lc : Option String)
    (tl : String) (lfs : List String) (h : target_language mt lc = some tl)
    (h2 : lookupLang cat.language_specific (lowerStr tl) = some lfs)
    (h3 : Mq ≤ lfs.length) :
    (languageContribution s Mq cat mt lc).length = Mq := by
  rw [languageContribution_bucket Mq cat mt lc tl lfs h h2]
  split_ifs with h4
  · rw [selectFromPool_length hs]
    omega
  · simp only [List.length_nil]
    omega

/-! ### `target_language` -/

theorem target_language_competence (mt : Option String) (lc : String)
    (h1 : lc ≠ "") (h2 : lc ∉ sentinelLanguages) :
    target_language mt (some lc) = some lc := by
  simp [target_language, h1, h2]

theorem target_language_sentinel (mt : Option String) (lc : String)
    (h2 : lc ∈ sentinelLanguages) :
    target_language mt (some lc) = target_language mt none := by
  have : ¬(lc ≠ "" ∧ lc ∉ sentinelLanguages) := by
    intro h
    exact h.2 h2
  simp only [target_language, if_neg this]

theorem target_language_empty_competence (mt : Option String) :
    target_language mt (some "") = target_language mt none := by
  have : ¬(("" : String) ≠ "" ∧ ("" : String) ∉ sentinelLanguages) := by
    intro h
    exact h.1 rfl
  simp only [target_language, if_neg this]

theorem target_language_mother (mt : String) (hmt : mt ≠ "") :
    target_language (some mt) none = some mt := by
  simp [target_language, hmt]

theorem lookupLang_eq_none (m : List (String × List String)) (key : String)
    (h : ∀ kv ∈ m, key ≠ kv.1) : lookupLang m key = none := by
  induction m with
  | nil => rfl
  | cons g rest ih =>
    obtain ⟨k, v⟩ := g
    simp only [lookupLang]
    rw [if_neg (fun e => h (k, v) (List.mem_cons_self _ _) e.symm)]
    exact ih fun kv hkv => h kv (List.mem_cons_of_mem _ hkv)

theorem languageContribution_ignores_mother {s : Nat → List String → List String}
    (Mq : Nat) (cat : Catalogue) (mt mt' : Option String) (l : String)
    (h1 : l ≠ "") (h2 : l ∉ sentinelLanguages) :
    languageContribution s Mq cat mt (some l) =
      languageContribution s Mq cat mt' (some l) := by
  unfold languageContribution
  rw [target_language_competence mt l h1 h2, target_language_competence mt' l h1 h2]

theorem languageContribution_no_cimatch {s : Nat → List String → List String}
    (Mq : Nat) (cat : Catalogue) (mt lc : Option String) (tl : String)
    (htl : target_language mt lc = some tl)
    (hkeys : ∀ kv ∈ cat.language_specific, lowerStr kv.1 = kv.1)
    (hnom : ∀ kv ∈ cat.language_specific, lowerStr tl ≠ lowerStr kv.1) :
    languageContribution s Mq cat mt lc = [] := by
  have hlk : lookupLang cat.language_specific (lowerStr tl) = none := by
    apply lookupLang_eq_none
    intro kv hkv e
    exact hnom kv hkv (by rw [e, hkeys kv hkv])
  exact languageContribution_no_bucket Mq cat mt lc tl htl hlk

theorem languageContribution_mem_bucket {s : Nat → List String → List String}
    (hs : FairShuffle s) (Mq : Nat) (cat : Catalogue) (mt lc : Option String)
    (tl : String) (lfs : List String) (htl : target_language mt lc = some tl)
    (hlk : lookupLang cat.language_specific (lowerStr tl) = some lfs) :
    ∀ f ∈ languageContribution s Mq cat mt lc, f ∈ lfs := by
  rw [languageContribution_bucket Mq cat mt lc tl lfs htl hlk]
  split_ifs with h
  · exact selectFromPool_subset hs _ _ _
  · simp

theorem generalContribution_subset {s : Nat → List String → List String}
    (hs : FairShuffle s) (Nq : Nat) (cat : Catalogue) :
    ∀ f ∈ generalContribution s Nq cat, f ∈ cat.general := by
  unfold generalContribution
  split_ifs with h
  · exact selectFromPool_subset hs _ _ _
  · simp

theorem allocate_map_file (s : Nat → List String → List String) (Nq Mq : Nat)
    (cat : Catalogue) (mt lc : Option String) :
    (allocateFromCatalogue s Nq Mq cat mt lc).map (fun p => p.2.file) =
      generalContribution s Nq cat ++ languageContribution s Mq cat mt lc := by
  unfold allocateFromCatalogue
  exact assignClips_map_file _

/-! ### Exact category counts for an even target -/

theorem selectCore_counters_even (t : Nat) (cp rp op : List String)
    (ht : t % 2 = 0) (h1 : t / 2 ≤ cp.length) (h2 : t / 2 ≤ rp.length) :
    (selectCore t cp rp op).2.1 = t / 2 ∧ (selectCore t cp rp op).2.2 = t / 2 := by
  simp only [selectCore, List.length_append, popTake_fst_length]
  generalize hq : clipQuotas t cp.length rp.length = qq
  obtain ⟨q1, q2⟩ := qq
  have hfacts : q1 = t / 2 ∧ q2 = t - t / 2 := by
    simp only [clipQuotas] at hq
    rw [if_neg (by omega : ¬(t % 2 ≠ 0 ∧ rp.length < cp.length))] at hq
    have e1 := congrArg Prod.fst hq
    have e2 := congrArg Prod.snd hq
    simp only at e1 e2
    exact ⟨e1.symm, e2.symm⟩
  have h0 : t - (min (min q1 cp.length) cp.length + min (min q2 rp.length) rp.length) = 0 := by
    omega
  rw [h0, topUp_zero]
  show min q1 cp.length = t / 2 ∧ min q2 rp.length = t / 2
  omega

theorem selectFromPool_counts_even {s : Nat → List String → List String}
    (hs : FairShuffle s) (b t : Nat) (files : List String)
    (ht : t % 2 = 0) (hc : t / 2 ≤ (files.filter isNewsClipFile).length)
    (hr : t / 2 ≤ (files.filter isNewsRealFile).length) :
    ((selectFromPool s b t files).filter isNewsClipFile).length = t / 2 ∧
      ((selectFromPool s b t files).filter isNewsRealFile).length = t / 2 := by
  obtain ⟨e1, e2⟩ := selectFromPool_filter_counts hs b t files
  rw [e1, e2]
  simp only [selectFromPoolFull]
  refine selectCore_counters_even t _ _ _ ht ?_ ?_
  · rw [(hs b _).length_eq]
    exact hc
  · rw [(hs (b + 1) _).length_eq]
    exact hr

/-! ### The concrete six-file scenario -/

theorem scenario_general_cases (o : Oracle) (ho : o.Fair) :
    (get_all_audio_files o.choice scenarioListing).general =
        ["audio/news_clip_1.mp3", "audio/news_clip_2.mp3", "audio/news_real_1.mp3",
          "audio/news_real_2.mp3", "audio/news_real_3.mp3"] ∨
      (get_all_audio_files o.choice scenarioListing).general =
        ["audio/news_clip_1.mp3", "audio/news_clip_2_spedup.mp3", "audio/news_real_1.mp3",
          "audio/news_real_2.mp3", "audio/news_real_3.mp3"] := by
  have h0 := ho.1 0 0 ["audio/news_clip_1.mp3"] (by simp)
  have h1 := ho.1 0 1 ["audio/news_clip_2.mp3", "audio/news_clip_2_spedup.mp3"] (by simp)
  have h2 := ho.1 0 2 ["audio/news_real_1.mp3"] (by simp)
  have h3 := ho.1 0 3 ["audio/news_real_2.mp3"] (by simp)
  have h4 := ho.1 0 4 ["audio/news_real_3.mp3"] (by simp)
  show ([o.choice 0 0 ["audio/news_clip_1.mp3"],
      o.choice 0 1 ["audio/news_clip_2.mp3", "audio/news_clip_2_spedup.mp3"],
      o.choice 0 2 ["audio/news_real_1.mp3"],
      o.choice 0 3 ["audio/news_real_2.mp3"],
      o.choice 0 4 ["audio/news_real_3.mp3"]] =
      ["audio/news_clip_1.mp3", "audio/news_clip_2.mp3", "audio/news_real_1.mp3",
        "audio/news_real_2.mp3", "audio/news_real_3.mp3"]) ∨
    ([o.choice 0 0 ["audio/news_clip_1.mp3"],
      o.choice 0 1 ["audio/news_clip_2.mp3", "audio/news_clip_2_spedup.mp3"],
      o.choice 0 2 ["audio/news_real_1.mp3"],
      o.choice 0 3 ["audio/news_real_2.mp3"],
      o.choice 0 4 ["audio/news_real_3.mp3"]] =
      ["audio/news_clip_1.mp3", "audio/news_clip_2_spedup.mp3", "audio/news_real_1.mp3",
        "audio/news_real_2.mp3", "audio/news_real_3.mp3"])
  rw [List.mem_singleton.1 h0, List.mem_singleton.1 h2, List.mem_singleton.1 h3,
    List.mem_singleton.1 h4]
  rcases List.mem_cons.1 h1 with h1' | h1'
  · left
    rw [h1']
  · right
    rw [List.mem_singleton.1 h1']

theorem scenario_core (o : Oracle) (ho : o.Fair) (gen : List String)
    (hgen : (get_all_audio_files o.choice scenarioListing).general = gen)
    (hlen : gen.length = 5)
    (hfc : (gen.filter isNewsClipFile).length = 2)
    (hfr : (gen.filter isNewsRealFile).length = 3)
    (hnd : (gen.map base_name).Nodup) :
    ((get_all_audio_files o.choice scenarioListing).general.filter isNewsClipFile).length = 2 ∧
      ((get_all_audio_files o.choice scenarioListing).general.filter isNewsRealFile).length = 3 ∧
      (get_participant_audio_clips o scenarioListing none none).length = 4 ∧
      (∀ f ∈ (get_all_audio_files o.choice scenarioListing).general,
        isNewsClipFile f = true →
          f ∈ (get_participant_audio_clips o scenarioListing none none).map
            fun p => p.2.file) ∧
      (((get_participant_audio_clips o scenarioListing none none).map
          (fun p => p.2.file)).filter isNewsRealFile).length = 2 ∧
      (∀ f ∈ (get_participant_audio_clips o scenarioListing none none).map
          fun p => p.2.file,
        isNewsRealFile f = true →
          f ∈ (get_all_audio_files o.choice scenarioListing).general) ∧
      (((get_participant_audio_clips o scenarioListing none none).map
          (fun p => p.2.file)).map base_name).Nodup := by
  have hlang : languageContribution o.shuffle M_LANGUAGE_CLIPS
      (get_all_audio_files o.choice scenarioListing) none none = [] :=
    languageContribution_none _ _ _ _ rfl
  have hmap : (get_participant_audio_clips o scenarioListing none none).map
      (fun p => p.2.file) = selectFromPool o.shuffle 0 4 gen := by
    unfold get_participant_audio_clips
    rw [allocate_map_file, hlang, List.append_nil]
    unfold generalContribution
    rw [hgen, if_pos (by omega : 0 < gen.length)]
    have hmin : min N_RANDOM_CLIPS gen.length = 4 := by
      rw [hlen]
      decide
    rw [hmin]
  have hcounts := selectFromPool_counts_even ho.2 0 4 gen (by decide)
    (by rw [hfc]) (by rw [hfr]; decide)
  have hSnodup : ((selectFromPool o.shuffle 0 4 gen).map base_name).Nodup :=
    selectFromPool_base_nodup ho.2 0 4 gen hnd
  refine ⟨by rw [hgen]; exact hfc, by rw [hgen]; exact hfr, ?_, ?_, ?_, ?_, ?_⟩
  · have he : (get_participant_audio_clips o scenarioListing none none).length =
        ((get_participant_audio_clips o scenarioListing none none).map
          (fun p => p.2.file)).length := (List.length_map _ _).symm
    rw [he, hmap, selectFromPool_length ho.2, hlen]
    decide
  · intro f hf hP
    rw [hgen] at hf
    rw [hmap]
    have hSnd : (selectFromPool o.shuffle 0 4 gen).Nodup := hSnodup.of_map _
    have hsub : (selectFromPool o.shuffle 0 4 gen).filter isNewsClipFile ⊆
        gen.filter isNewsClipFile := by
      intro x hx
      exact List.mem_filter.2
        ⟨selectFromPool_subset ho.2 0 4 gen x (List.mem_filter.1 hx).1,
          (List.mem_filter.1 hx).2⟩
    have hperm : (selectFromPool o.shuffle 0 4 gen).filter isNewsClipFile ~
        gen.filter isNewsClipFile := by
      refine ((hSnd.filter _).subperm hsub).perm_of_length_le ?_
      rw [hfc, hcounts.1]
    have hmem : f ∈ (selectFromPool o.shuffle 0 4 gen).filter isNewsClipFile :=
      hperm.mem_iff.2 (List.mem_filter.2 ⟨hf, hP⟩)
    exact (List.mem_filter.1 hmem).1
  · rw [hmap, hcounts.2]
  · intro f hf _
    rw [hmap] at hf
    rw [hgen]
    exact selectFromPool_subset ho.2 0 4 gen f hf
  · rw [hmap]
    exact hSnodup

/-! ## Claim theorems -/

/-- C1 (counterexample): the claim asserts that the assignment never
contains two clips sharing a `base_name`, across the concatenation of the
general and language contributions.  On the catalogue whose general pool and
`tamil` bucket each hold a file named `news_clip_1.mp3`, a participant with
mother tongue `tamil` receives both files, whose `base_name`s are equal, so
the assignment does contain a duplicated `base_name`. -/
theorem C1_counterexample :
    ((get_participant_audio_clips idOracle crossPoolListing (some "tamil") none).map
        fun p => base_name p.2.file) = ["news_clip_1", "news_clip_1"] ∧
      ¬(((get_participant_audio_clips idOracle crossPoolListing (some "tamil") none).map
        fun p => base_name p.2.file).Nodup) := by
  constructor
  · decide
  · decide

/-- C1 (amended): within each contribution separately the assignment never
contains two clips sharing the same `base_name`: for every fair random
outcome, every directory listing, quotas and profile, the general-pool
contribution and the language-pool contribution each have pairwise distinct
`base_name`s.  (Uniqueness across the concatenation of the two
contributions can fail, per `C1_counterexample`.) -/
theorem C1_no_dup_within_each_contribution (o : Oracle) (ho : o.Fair)
    (d : DirListing) (Nq Mq : Nat) (mt lc : Option String) :
    ((generalContribution o.shuffle Nq (get_all_audio_files o.choice d)).map
        base_name).Nodup ∧
      ((languageContribution o.shuffle Mq (get_all_audio_files o.choice d) mt lc).map
        base_name).Nodup := by
  constructor
  · unfold generalContribution
    split_ifs with h
    · apply selectFromPool_base_nodup ho.2
      rw [get_all_general]
      exact fsd_base_nodup (fun i l hl => ho.1 0 i l hl) _
    · simp
  · rcases htl : target_language mt lc with _ | tl
    · rw [languageContribution_none _ _ _ _ htl]
      simp
    · rcases hlk : lookupLang (get_all_audio_files o.choice d).language_specific
          (lowerStr tl) with _ | lfs
      · rw [languageContribution_no_bucket _ _ _ _ _ htl hlk]
        simp
      · rw [languageContribution_bucket _ _ _ _ _ _ htl hlk]
        split_ifs with h
        · apply selectFromPool_base_nodup ho.2
          obtain ⟨j, lf, hv⟩ := get_all_lang_bucket o.choice d _ lfs hlk
          rw [hv]
          exact fsd_base_nodup (fun i l hl => ho.1 j i l hl) _
        · simp

/-- Witness for the amended C1 theorem at the deterministic oracle and the
cross-pool catalogue. -/
theorem C1_no_dup_witness :
    Oracle.Fair idOracle ∧
      (((generalContribution idOracle.shuffle 4
          (get_all_audio_files idOracle.choice crossPoolListing)).map base_name).Nodup ∧
        ((languageContribution idOracle.shuffle 2
          (get_all_audio_files idOracle.choice crossPoolListing) (some "tamil") none).map
            base_name).Nodup) :=
  ⟨idOracle_fair,
    C1_no_dup_within_each_contribution idOracle idOracle_fair crossPoolListing 4 2
      (some "tamil") none⟩

/-- C2: for every fair shuffle outcome, catalogue, quotas and profile, the
general contribution has at most `N` clips and the language contribution at
most `M`; when the (post-dedup) general pool has at least `N` files the
general contribution has exactly `N` clips, and when the selected language
bucket has at least `M` files the language contribution has exactly `M`. -/
theorem C2_quota_bounds {s : Nat → List String → List String} (hs : FairShuffle s)
    (Nq Mq : Nat) (cat : Catalogue) (mt lc : Option String) :
    (generalContribution s Nq cat).length ≤ Nq ∧
      (languageContribution s Mq cat mt lc).length ≤ Mq ∧
      (Nq ≤ cat.general.length → (generalContribution s Nq cat).length = Nq) ∧
      (∀ tl lfs, target_language mt lc = some tl →
        lookupLang cat.language_specific (lowerStr tl) = some lfs →
        Mq ≤ lfs.length → (languageContribution s Mq cat mt lc).length = Mq) := by
  refine ⟨?_, languageContribution_length_le hs Mq cat mt lc, ?_, ?_⟩
  · rw [generalContribution_length hs]
    omega
  · intro h
    rw [generalContribution_length hs]
    omega
  · intro tl lfs htl hlk h3
    exact languageContribution_length_eq hs Mq cat mt lc tl lfs htl hlk h3

/-- Witness for C2 at the identity shuffle and the two-bucket catalogue. -/
theorem C2_quota_bounds_witness :
    FairShuffle idShuffle ∧
      ((generalContribution idShuffle 4 langCat).length ≤ 4 ∧
        (languageContribution idShuffle 2 langCat none (some "Tamil")).length ≤ 2 ∧
        (4 ≤ langCat.general.length →
          (generalContribution idShuffle 4 langCat).length = 4) ∧
        (∀ tl lfs, target_language none (some "Tamil") = some tl →
          lookupLang langCat.language_specific (lowerStr tl) = some lfs →
          2 ≤ lfs.length →
          (languageContribution idShuffle 2 langCat none (some "Tamil")).length = 2)) :=
  ⟨idShuffle_fair, C2_quota_bounds idShuffle_fair 4 2 langCat none (some "Tamil")⟩

/-- C3: for every fair shuffle outcome and pool in which both the
`news_clip` and the `news_real` candidate pools have at least `target / 2`
members, the numbers of selected clips from the two categories differ by at
most one. -/
theorem C3_category_balance {s : Nat → List String → List String} (hs : FairShuffle s)
    (b target : Nat) (files : List String)
    (hc : target / 2 ≤ (files.filter isNewsClipFile).length)
    (hr : target / 2 ≤ (files.filter isNewsRealFile).length) :
    ((selectFromPool s b target files).filter isNewsClipFile).length ≤
        ((selectFromPool s b target files).filter isNewsRealFile).length + 1 ∧
      ((selectFromPool s b target files).filter isNewsRealFile).length ≤
        ((selectFromPool s b target files).filter isNewsClipFile).length + 1 :=
  selectFromPool_balance hs b target files hc hr

/-- Witness for C3 on a balanced four-file pool with target 4. -/
theorem C3_category_balance_witness :
    FairShuffle idShuffle ∧
      4 / 2 ≤ (balancedFiles.filter isNewsClipFile).length ∧
      4 / 2 ≤ (balancedFiles.filter isNewsRealFile).length ∧
      (((selectFromPool idShuffle 0 4 balancedFiles).filter isNewsClipFile).length ≤
          ((selectFromPool idShuffle 0 4 balancedFiles).filter isNewsRealFile).length + 1 ∧
        ((selectFromPool idShuffle 0 4 balancedFiles).filter isNewsRealFile).length ≤
          ((selectFromPool idShuffle 0 4 balancedFiles).filter isNewsClipFile).length + 1) :=
  ⟨idShuffle_fair, by decide, by decide,
    C3_category_balance idShuffle_fair 0 4 balancedFiles (by decide) (by decide)⟩

/-- C4: for every fair random outcome, on the empty catalogue the allocator
returns the empty assignment (without any error: the function is total), and
on every catalogue the assignment never exceeds `N + M` clips, so a pool
smaller than its quota under-fills instead of failing. -/
theorem C4_graceful_degradation (o : Oracle) (ho : o.Fair) (d : DirListing)
    (mt lc : Option String) :
    get_participant_audio_clips o ⟨[], []⟩ mt lc = [] ∧
      (get_participant_audio_clips o d mt lc).length ≤
        N_RANDOM_CLIPS + M_LANGUAGE_CLIPS := by
  constructor
  · unfold get_participant_audio_clips allocateFromCatalogue
    have hcat : get_all_audio_files o.choice ⟨[], []⟩ = ⟨[], []⟩ := rfl
    rw [hcat]
    have hg : generalContribution o.shuffle N_RANDOM_CLIPS ⟨[], []⟩ = [] := by
      unfold generalContribution
      simp
    have hl : languageContribution o.shuffle M_LANGUAGE_CLIPS ⟨[], []⟩ mt lc = [] := by
      rcases htl : target_language mt lc with _ | tl
      · exact languageContribution_none _ _ _ _ htl
      · exact languageContribution_no_bucket _ _ _ _ tl htl rfl
    rw [hg, hl]
    rfl
  · unfold get_participant_audio_clips allocateFromCatalogue
    rw [assignClips_length, List.length_append]
    have h1 := generalContribution_length ho.2 N_RANDOM_CLIPS
      (get_all_audio_files o.choice d)
    have h2 := languageContribution_length_le ho.2 M_LANGUAGE_CLIPS
      (get_all_audio_files o.choice d) mt lc
    omega

/-- Witness for C4 at the deterministic oracle and the six-file scenario. -/
theorem C4_graceful_degradation_witness :
    Oracle.Fair idOracle ∧
      (get_participant_audio_clips idOracle ⟨[], []⟩ none none = [] ∧
        (get_participant_audio_clips idOracle scenarioListing none none).length ≤
          N_RANDOM_CLIPS + M_LANGUAGE_CLIPS) :=
  ⟨idOracle_fair, C4_graceful_degradation idOracle idOracle_fair scenarioListing none none⟩

/-- C5: for every fair shuffle outcome and catalogue: a non-empty
non-sentinel `language_competence` selects the bucket and `mother_tongue` is
ignored; an absent (`none`) or sentinel `language_competence` falls back to
`mother_tongue`;
when the resolved language matches no key of the (lower-cased) language map
case-insensitively the language contribution is empty; and with
`mother_tongue = "French"`, `language_competence = "Tamil"` and populated
`french` and `tamil` buckets, every language clip comes from the `tamil`
bucket. -/
theorem C5
    {s : Nat → List String → List String} (hs : FairShuffle s)
    (Mq : Nat) (cat : Catalogue) :
    (∀ (mt mt' : Option String) (l : String), l ≠ "" → l ∉ sentinelLanguages →
      target_language mt (some l) = some l ∧
        languageContribution s Mq cat mt (some l) =
          languageContribution s Mq cat mt' (some l)) ∧
      (∀ (m : String) (lc : Option String), m ≠ "" →
        (lc = none ∨ ∃ l, lc = some l ∧ l ∈ sentinelLanguages) →
        target_language (some m) lc = some m) ∧
      (∀ (mt lc : Option String) (tl : String), target_language mt lc = some tl →
        (∀ kv ∈ cat.language_specific, lowerStr kv.1 = kv.1) →
        (∀ kv ∈ cat.language_specific, lowerStr tl ≠ lowerStr kv.1) →
        languageContribution s Mq cat mt lc = []) ∧
      (∀ tamilFiles frenchFiles : List String,
        lookupLang cat.language_specific "tamil" = some tamilFiles →
        lookupLang cat.language_specific "french" = some frenchFiles →
        ∀ f ∈ languageContribution s Mq cat (some "French") (some "Tamil"),
          f ∈ tamilFiles) := by
  refine ⟨?_, ?_, ?_, ?_⟩
  · intro mt mt' l h1 h2
    exact ⟨target_language_competence mt l h1 h2,
      languageContribution_ignores_mother Mq cat mt mt' l h1 h2⟩
  · intro m lc hm hl
    rcases hl with rfl | ⟨l, rfl, hl⟩
    · exact target_language_mother m hm
    · rw [target_language_sentinel (some m) l hl]
      exact target_language_mother m hm
  · intro mt lc tl htl hkeys hnom
    exact languageContribution_no_cimatch Mq cat mt lc tl htl hkeys hnom
  · intro tamilFiles frenchFiles htam hfr f hf
    have htl : target_language (some "French") (some "Tamil") = some "Tamil" :=
      target_language_competence _ _ (by decide) (by decide)
    have hlow : lowerStr "Tamil" = "tamil" := by decide
    refine languageContribution_mem_bucket hs Mq cat _ _ "Tamil" tamilFiles htl ?_ f hf
    rw [hlow]
    exact htam

/-- Witness for C5 at the identity shuffle and the two-bucket catalogue. -/
theorem C5_witness :
    FairShuffle idShuffle ∧
      ((∀ (mt mt' : Option String) (l : String), l ≠ "" → l ∉ sentinelLanguages →
        target_language mt (some l) = some l ∧
          languageContribution idShuffle 2 langCat mt (some l) =
            languageContribution idShuffle 2 langCat mt' (some l)) ∧
      (∀ (m : String) (lc : Option String), m ≠ "" →
        (lc = none ∨ ∃ l, lc = some l ∧ l ∈ sentinelLanguages) →
        target_language (some m) lc = some m) ∧
      (∀ (mt lc : Option String) (tl : String), target_language mt lc = some tl →
        (∀ kv ∈ langCat.language_specific, lowerStr kv.1 = kv.1) →
        (∀ kv ∈ langCat.language_specific, lowerStr tl ≠ lowerStr kv.1) →
        languageContribution idShuffle 2 langCat mt lc = []) ∧
      (∀ tamilFiles frenchFiles : List String,
        lookupLang langCat.language_specific "tamil" = some tamilFiles →
        lookupLang langCat.language_specific "french" = some frenchFiles →
        ∀ f ∈ languageContribution idShuffle 2 langCat (some "French") (some "Tamil"),
          f ∈ tamilFiles)) :=
  ⟨idShuffle_fair, C5 idShuffle_fair 2 langCat⟩

/-- C6: the per-pool quotas are `base_quota = target / 2` for `news_clip`
and `remainder_quota = target - base_quota` for `news_real`, except that
when the target is odd and the `news_clip` pool is strictly larger the two
quotas are swapped; in that case `news_clip` receives `target / 2 + 1` and
`news_real` receives `target / 2`, so the larger pool gets the extra unit. -/
theorem C6_quota_computation (target nClip nReal : Nat) :
    (clipQuotas target nClip nReal =
      if target % 2 = 1 ∧ nReal < nClip
      then (target - target / 2, target / 2)
      else (target / 2, target - target / 2)) ∧
      (target % 2 = 1 → nReal < nClip →
        (clipQuotas target nClip nReal).1 = target / 2 + 1 ∧
          (clipQuotas target nClip nReal).2 = target / 2) := by
  constructor
  · unfold clipQuotas
    by_cases h : target % 2 ≠ 0 ∧ nReal < nClip
    · rw [if_pos h, if_pos ⟨by omega, h.2⟩]
    · rw [if_neg h, if_neg (fun hcon => h ⟨by omega, hcon.2⟩)]
  · intro h1 h2
    unfold clipQuotas
    rw [if_pos ⟨by omega, h2⟩]
    constructor
    · show target - target / 2 = target / 2 + 1
      omega
    · rfl

/-- Witness for C6 at an odd target with the `news_clip` pool larger. -/
theorem C6_quota_computation_witness :
    (5 % 2 = 1 ∧ 2 < 3) ∧
      ((clipQuotas 5 3 2 =
        if 5 % 2 = 1 ∧ 2 < 3
        then (5 - 5 / 2, 5 / 2)
        else (5 / 2, 5 - 5 / 2)) ∧
      (5 % 2 = 1 → 2 < 3 →
        (clipQuotas 5 3 2).1 = 5 / 2 + 1 ∧ (clipQuotas 5 3 2).2 = 5 / 2)) :=
  ⟨by decide, C6_quota_computation 5 3 2⟩

/-- C7: one step of the top-up loop takes from `news_clip` when it has
unclaimed items and is not ahead (or `news_real` is exhausted), else from
`news_real`, else — only when both news pools are exhausted — from `other`;
the loop stops when the target is reached (fuel 0) or all three pools are
exhausted; and it is total, filling exactly
`min remaining (total unclaimed)` further slots, so under-fill is not an
error. -/
theorem C7_topup_policy :
    (∀ (r : Nat) (cp rp op sel : List String) (cc rc : Nat),
      cp ≠ [] → (cc ≤ rc ∨ rp = []) →
      topUp (r + 1) cp rp op sel cc rc =
        topUp r cp.dropLast rp op (sel ++ [cp.getLastD ""]) (cc + 1) rc) ∧
      (∀ (r : Nat) (cp rp op sel : List String) (cc rc : Nat),
        rp ≠ [] → (cp = [] ∨ rc < cc) →
        topUp (r + 1) cp rp op sel cc rc =
          topUp r cp rp.dropLast op (sel ++ [rp.getLastD ""]) cc (rc + 1)) ∧
      (∀ (r : Nat) (op sel : List String) (cc rc : Nat), op ≠ [] →
        topUp (r + 1) [] [] op sel cc rc =
          topUp r [] [] op.dropLast (sel ++ [op.getLastD ""]) cc rc) ∧
      (∀ (r : Nat) (sel : List String) (cc rc : Nat),
        topUp (r + 1) [] [] [] sel cc rc = (sel, cc, rc)) ∧
      (∀ (cp rp op sel : List String) (cc rc : Nat),
        topUp 0 cp rp op sel cc rc = (sel, cc, rc)) ∧
      (∀ (r : Nat) (cp rp op sel : List String) (cc rc : Nat),
        (topUp r cp rp op sel cc rc).1.length =
          sel.length + min r (cp.length + rp.length + op.length)) :=
  ⟨fun r cp rp op sel cc rc h1 h2 => topUp_clip_step r cp rp op sel cc rc h1 h2,
    fun r cp rp op sel cc rc h1 h2 => topUp_real_step r cp rp op sel cc rc h1 h2,
    fun r op sel cc rc h => topUp_other_step r [] [] op sel cc rc rfl rfl h,
    fun r sel cc rc => topUp_stop r sel cc rc,
    fun cp rp op sel cc rc => topUp_zero cp rp op sel cc rc,
    fun r cp rp op sel cc rc => topUp_sel_length r cp rp op sel cc rc⟩

/-- Witness for C7: one concrete step of each kind of the top-up loop. -/
theorem C7_topup_policy_witness :
    ((["a"] : List String) ≠ [] ∧ ((0 : Nat) ≤ 0 ∨ (["b"] : List String) = [])) ∧
      topUp 1 ["a"] ["b"] [] [] 0 0 =
        topUp 0 (["a"] : List String).dropLast ["b"] []
          ([] ++ [(["a"] : List String).getLastD ""]) 1 0 :=
  ⟨⟨by decide, Or.inl (by decide)⟩,
    C7_topup_policy.1 0 ["a"] ["b"] [] [] 0 0 (by decide) (Or.inl (by decide))⟩

/-- C8: on the concrete six-file catalogue with `N = 4`, for every fair
random outcome: deduplication leaves 2 `news_clip` and 3 `news_real`
candidates, the assignment has exactly 4 clips, both `news_clip` candidates
are selected, exactly 2 `news_real` clips are selected and each is one of
the 3 candidates, and no two selected clips share a `base_name`. -/
theorem C8_concrete_scenario (o : Oracle) (ho : o.Fair) :
    ((get_all_audio_files o.choice scenarioListing).general.filter
        isNewsClipFile).length = 2 ∧
      ((get_all_audio_files o.choice scenarioListing).general.filter
        isNewsRealFile).length = 3 ∧
      (get_participant_audio_clips o scenarioListing none none).length = 4 ∧
      (∀ f ∈ (get_all_audio_files o.choice scenarioListing).general,
        isNewsClipFile f = true →
          f ∈ (get_participant_audio_clips o scenarioListing none none).map
            fun p => p.2.file) ∧
      (((get_participant_audio_clips o scenarioListing none none).map
          (fun p => p.2.file)).filter isNewsRealFile).length = 2 ∧
      (∀ f ∈ (get_participant_audio_clips o scenarioListing none none).map
          fun p => p.2.file,
        isNewsRealFile f = true →
          f ∈ (get_all_audio_files o.choice scenarioListing).general) ∧
      (((get_participant_audio_clips o scenarioListing none none).map
          (fun p => p.2.file)).map base_name).Nodup := by
  rcases scenario_general_cases o ho with hgen | hgen
  · exact scenario_core o ho _ hgen (by decide) (by decide) (by decide) (by decide)
  · exact scenario_core o ho _ hgen (by decide) (by decide) (by decide) (by decide)

/-- Witness for C8 at the deterministic oracle. -/
theorem C8_concrete_scenario_witness :
    Oracle.Fair idOracle ∧
      (((get_all_audio_files idOracle.choice scenarioListing).general.filter
          isNewsClipFile).length = 2 ∧
        ((get_all_audio_files idOracle.choice scenarioListing).general.filter
          isNewsRealFile).length = 3 ∧
        (get_participant_audio_clips idOracle scenarioListing none none).length = 4 ∧
        (∀ f ∈ (get_all_audio_files idOracle.choice scenarioListing).general,
          isNewsClipFile f = true →
            f ∈ (get_participant_audio_clips idOracle scenarioListing none none).map
              fun p => p.2.file) ∧
        (((get_participant_audio_clips idOracle scenarioListing none none).map
            (fun p => p.2.file)).filter isNewsRealFile).length = 2 ∧
        (∀ f ∈ (get_participant_audio_clips idOracle scenarioListing none none).map
            fun p => p.2.file,
          isNewsRealFile f = true →
            f ∈ (get_all_audio_files idOracle.choice scenarioListing).general) ∧
        (((get_participant_audio_clips idOracle scenarioListing none none).map
            (fun p => p.2.file)).map base_name).Nodup) :=
  ⟨idOracle_fair, C8_concrete_scenario idOracle idOracle_fair⟩

/-- C9: for every fair shuffle outcome, catalogue, quotas and profile: the
assignment's clip files are exactly the general contribution followed by the
language contribution; every general clip is a catalogue general file; every
language clip belongs to the single bucket selected by the resolved
language; with no resolved language or no matching bucket the language
contribution is empty; and the assignment keys are exactly `clip_1` through
`clip_len` in order. -/
theorem C9_assignment_structure {s : Nat → List String → List String}
    (hs : FairShuffle s) (Nq Mq : Nat) (cat : Catalogue) (mt lc : Option String) :
    ((allocateFromCatalogue s Nq Mq cat mt lc).map fun p => p.2.file) =
        generalContribution s Nq cat ++ languageContribution s Mq cat mt lc ∧
      (∀ f ∈ generalContribution s Nq cat, f ∈ cat.general) ∧
      (∀ tl lfs, target_language mt lc = some tl →
        lookupLang cat.language_specific (lowerStr tl) = some lfs →
        ∀ f ∈ languageContribution s Mq cat mt lc, f ∈ lfs) ∧
      (target_language mt lc = none → languageContribution s Mq cat mt lc = []) ∧
      (∀ tl, target_language mt lc = some tl →
        lookupLang cat.language_specific (lowerStr tl) = none →
        languageContribution s Mq cat mt lc = []) ∧
      ((allocateFromCatalogue s Nq Mq cat mt lc).map Prod.fst =
        (List.range (generalContribution s Nq cat ++
          languageContribution s Mq cat mt lc).length).map
            fun i => "clip_" ++ Nat.repr (i + 1)) := by
  refine ⟨allocate_map_file s Nq Mq cat mt lc, generalContribution_subset hs Nq cat,
    ?_, ?_, ?_, ?_⟩
  · intro tl lfs htl hlk
    exact languageContribution_mem_bucket hs Mq cat mt lc tl lfs htl hlk
  · intro h
    exact languageContribution_none _ _ _ _ h
  · intro tl htl hlk
    exact languageContribution_no_bucket _ _ _ _ _ htl hlk
  · unfold allocateFromCatalogue
    exact assignClips_keys _

/-- Witness for C9 at the identity shuffle and the two-bucket catalogue. -/
theorem C9_assignment_structure_witness :
    FairShuffle idShuffle ∧
      (((allocateFromCatalogue idShuffle 4 2 langCat (some "tamil") none).map
          fun p => p.2.file) =
        generalContribution idShuffle 4 langCat ++
          languageContribution idShuffle 2 langCat (some "tamil") none ∧
      (∀ f ∈ generalContribution idShuffle 4 langCat, f ∈ langCat.general) ∧
      (∀ tl lfs, target_language (some "tamil") none = some tl →
        lookupLang langCat.language_specific (lowerStr tl) = some lfs →
        ∀ f ∈ languageContribution idShuffle 2 langCat (some "tamil") none, f ∈ lfs) ∧
      (target_language (some "tamil") none = none →
        languageContribution idShuffle 2 langCat (some "tamil") none = []) ∧
      (∀ tl, target_language (some "tamil") none = some tl →
        lookupLang langCat.language_specific (lowerStr tl) = none →
        languageContribution idShuffle 2 langCat (some "tamil") none = []) ∧
      ((allocateFromCatalogue idShuffle 4 2 langCat (some "tamil") none).map Prod.fst =
        (List.range (generalContribution idShuffle 4 langCat ++
          languageContribution idShuffle 2 langCat (some "tamil") none).length).map
            fun i => "clip_" ++ Nat.repr (i + 1))) :=
  ⟨idShuffle_fair, C9_assignment_structure idShuffle_fair 4 2 langCat (some "tamil") none⟩

/-- C10 (counterexample): the claim also asserts that a file with no
`_spedup` sibling is always retained.  On the input
`["a/x.mp3", "b/x.mp3"]` — two files, neither a speed variant, sharing the
file name `x.mp3` — the head-picking outcome keeps only `a/x.mp3`, so
`b/x.mp3`, which has no `_spedup` sibling, is dropped. -/
theorem C10_counterexample :
    filter_speed_duplicates headChoice sameNameInput = ["a/x.mp3"] ∧
      "b/x.mp3" ∈ sameNameInput ∧
      (∀ f ∈ sameNameInput, isSpeedVariant f = false) ∧
      "b/x.mp3" ∉ filter_speed_duplicates headChoice sameNameInput := by
  refine ⟨by decide, by decide, by decide, by decide⟩

/-- C10 (amended): for every fair choice outcome and input list,
`filter_speed_duplicates` returns exactly one file per distinct `base_name`
of the input (counted via the output's `base_name`s), every returned file is
an input file, the output length equals the number of distinct `base_name`s,
and a file whose `base_name` no other input file shares is always retained.
(A file merely lacking a `_spedup` sibling need not be retained when another
input file shares its `base_name`, per `C10_counterexample`.) -/
theorem C10_one_per_base_name {c : Nat → List String → String} (hc : FairChoice c)
    (files : List String) :
    (∀ b, ((filter_speed_duplicates c files).map base_name).count b =
        if b ∈ files.map base_name then 1 else 0) ∧
      (∀ f ∈ filter_speed_duplicates c files, f ∈ files) ∧
      (filter_speed_duplicates c files).length = (files.map base_name).dedup.length ∧
      (∀ f ∈ files, (files.map base_name).count (base_name f) = 1 →
        f ∈ filter_speed_duplicates c files) := by
  refine ⟨fun b => fsd_count hc files b, fsd_subset hc files,
    fsd_distinct_length c files, ?_⟩
  intro f hf hcount
  exact fsd_retain_unique hc files f hf hcount

/-- Witness for the amended C10 theorem on a speed-variant pair plus a
singleton. -/
theorem C10_one_per_base_name_witness :
    FairChoice headChoice ∧
      ((∀ b, ((filter_speed_duplicates headChoice
          ["audio/news_clip_2.mp3", "audio/news_clip_2_spedup.mp3",
            "audio/news_real_1.mp3"]).map base_name).count b =
        if b ∈ (["audio/news_clip_2.mp3", "audio/news_clip_2_spedup.mp3",
            "audio/news_real_1.mp3"] : List String).map base_name then 1 else 0) ∧
      (∀ f ∈ filter_speed_duplicates headChoice
          ["audio/news_clip_2.mp3", "audio/news_clip_2_spedup.mp3",
            "audio/news_real_1.mp3"],
        f ∈ (["audio/news_clip_2.mp3", "audio/news_clip_2_spedup.mp3",
          "audio/news_real_1.mp3"] : List String)) ∧
      (filter_speed_duplicates headChoice
          ["audio/news_clip_2.mp3", "audio/news_clip_2_spedup.mp3",
            "audio/news_real_1.mp3"]).length =
        ((["audio/news_clip_2.mp3", "audio/news_clip_2_spedup.mp3",
          "audio/news_real_1.mp3"] : List String).map base_name).dedup.length ∧
      (∀ f ∈ (["audio/news_clip_2.mp3", "audio/news_clip_2_spedup.mp3",
          "audio/news_real_1.mp3"] : List String),
        ((["audio/news_clip_2.mp3", "audio/news_clip_2_spedup.mp3",
          "audio/news_real_1.mp3"] : List String).map base_name).count (base_name f) = 1 →
        f ∈ filter_speed_duplicates headChoice
          ["audio/news_clip_2.mp3", "audio/news_clip_2_spedup.mp3",
            "audio/news_real_1.mp3"])) :=
  ⟨headChoice_fair, C10_one_per_base_name headChoice_fair
    ["audio/news_clip_2.mp3", "audio/news_clip_2_spedup.mp3", "audio/news_real_1.mp3"]⟩

end LnsPoll
